import Mathlib

/-!
# Verification development for `manual` (manual memory allocation in Go)

Shallow embedding of `manual.go`: the `TestAllocator` reference allocator
(`Malloc`, `Free`, `SetMaxMemory`, `SetMaxFree`).

Modelling conventions.

* A byte slice `[]byte` is a `Block`: the address of its first element
  (`unsafe.SliceData`) and its bytes. Its Go length is `Block.len`. A Go slice length is
  always below `math.MaxInt`; theorems that depend on it say so in a hypothesis.
* `unsafe.Pointer` is `Option Nat`: `none` is the nil pointer, `some x` the address `x`.
* The Go `int` fields `maxmem`, `currlive`, `currfree`, `maxfree` are integers. The
  code is embedded twice. `Malloc` and `Free` compute with exact integers, take a natural
  number as size and let `make` succeed: they describe every run in which no counter
  overflows and `make` returns. `Malloc64` and `Free64` are the same methods with the
  wrap-around of a 64-bit `int` (`wrap64`), any `int` as size, and the outcome of `make`
  (a slice at any address, or a panic) as an argument; `Malloc64_eq_Malloc` and
  `Free64_eq_Free` state that the two agree where nothing overflows. Claims whose truth
  depends on overflow or on a failing `make` are settled on the 64-bit methods.
* The call `make([]byte, n)` is the only point where the Go runtime is involved. It is
  `makeBytes`: for `n > 0` it hands out the next `n` unused addresses above a heap
  cursor, so that distinct blocks occupy disjoint addresses; for `n = 0` it returns the
  address of the single zero-size object of the runtime (`zerobase`), which is what the Go
  runtime returns for every zero-size allocation.
* The Go `error` is `Option String`, `none` being the nil error.
* The `afterFree` hook only observes the freed bytes and is left out of the state.
* The interface `Allocator` is a pair of state-passing methods over a state type; the
  generic functions `Malloc[T]` and `Free[T]` are `Generic.Malloc` and `Generic.Free`, with
  `unsafe.Sizeof` of the element type as a parameter. A slice `[]T` is its data pointer and
  length (`Slice`), and a panic is the outcome `Outcome.fatal`, which keeps the state the
  allocator had when the panic was raised. The allocator `recording` logs the calls it
  receives, which is how "calls the allocator exactly once" is stated.
-/

namespace manual

/-- Value of Go `math.MaxInt` (64-bit `int`). -/
def maxInt : Nat := 2 ^ 63 - 1

/-- Address of the zero-size object of the Go runtime: every zero-size allocation points
here. -/
def zerobase : Nat := 0

/-- A Go `[]byte`: the address of its backing array and its contents. -/
structure Block where
  base : Nat
  bytes : List Nat
deriving DecidableEq, Inhabited

/-- Go `len(b)`. -/
def Block.len (b : Block) : Nat := b.bytes.length

/-- Go `unsafe.Pointer`: `none` is nil. -/
abbrev Pointer := Option Nat

/-- Go `unsafe.Pointer(unsafe.SliceData(b))` of a non-nil slice. -/
def Block.ptr (b : Block) : Pointer := some b.base

/-- The struct `TestAllocator` (manual.go lines 42-50), together with the heap cursor
`heap` of the Go runtime that `make` draws fresh addresses from. -/
structure TestAllocator where
  maxmem : Int
  currlive : Int
  live : List Block
  currfree : Int
  maxfree : Int
  free : List Block
  heap : Nat
deriving DecidableEq

/-- The zero value `var ta TestAllocator`. -/
def zeroValue : TestAllocator :=
  { maxmem := 0, currlive := 0, live := [], currfree := 0, maxfree := 0, free := [], heap := 0 }

/-- Method `SetMaxMemory` (lines 54-56). -/
def SetMaxMemory (a : TestAllocator) (maxmemInBytes : Int) : TestAllocator :=
  { a with maxmem := maxmemInBytes }

/-- Method `SetMaxFree` (lines 60-62). -/
def SetMaxFree (a : TestAllocator) (maxFreeMemInBytes : Int) : TestAllocator :=
  { a with maxfree := maxFreeMemInBytes }

/-- Go `make([]byte, n)` with the heap cursor at `heap`: the new slice and the new cursor.
A zero-size slice points at `zerobase`; otherwise the slice takes the addresses
`heap + 1, ..., heap + n` and is zero-filled. -/
def makeBytes (heap n : Nat) : Block × Nat :=
  if n = 0 then (⟨zerobase, []⟩, heap) else (⟨heap + 1, List.replicate n 0⟩, heap + n)

/-- The loop of `Malloc` (lines 73-79) over the rest of the free list, entered at index `i`
with the loop variables `(freeMatch, minFreeMatch)`. -/
def scanFree (n : Nat) : List Block → Nat → Int × Nat → Int × Nat
  | [], _, acc => acc
  | b :: rest, i, (freeMatch, minFreeMatch) =>
    if n ≤ b.len ∧ b.len < minFreeMatch then scanFree n rest (i + 1) ((i : Int), b.len)
    else scanFree n rest (i + 1) (freeMatch, minFreeMatch)

/-- The idiom `s[i] = s[len(s)-1]; s = s[:len(s)-1]` (lines 82-83 and 105-106). -/
def swapRemove (s : List Block) (i : Nat) : List Block :=
  (s.set i (s.getD (s.length - 1) default)).dropLast

/-- Method `TestAllocator.Malloc` (lines 70-97): the returned pointer and the allocator afterwards. -/
def Malloc (a : TestAllocator) (n : Nat) : Pointer × TestAllocator :=
  let r := scanFree n a.free 0 (-1, maxInt)
  let freeMatch := r.1
  let minFreeMatch := r.2
  if 0 ≤ freeMatch then
    let nowlive := a.free.getD freeMatch.toNat default
    (nowlive.ptr,
      { a with
        free := swapRemove a.free freeMatch.toNat
        live := a.live ++ [nowlive]
        currfree := a.currfree - minFreeMatch
        currlive := a.currlive + minFreeMatch })
  else
    let currlive := a.currlive + n
    if a.maxmem ≠ 0 ∧ currlive + a.currfree > a.maxmem then (none, a)
    else
      let m := makeBytes a.heap n
      (m.1.ptr, { a with currlive := currlive, live := a.live ++ [m.1], heap := m.2 })

/-- The search of `Free` (lines 101-103): the first index at or after `i` whose block starts
at `p`. -/
def findLive (p : Pointer) : List Block → Nat → Option Nat
  | [], _ => none
  | b :: rest, i => if b.ptr = p then some i else findLive p rest (i + 1)

/-- Method `TestAllocator.Free` (lines 100-119): the returned error and the allocator afterwards. -/
def Free (a : TestAllocator) (p : Pointer) : Option String × TestAllocator :=
  match findLive p a.live 0 with
  | some i =>
    let freed := a.live.getD i default
    let live := swapRemove a.live i
    let currfree := a.currfree + freed.len
    if a.maxfree = 0 ∨ currfree < a.maxfree then
      (none, { a with live := live, free := a.free ++ [freed], currfree := currfree })
    else
      (none, { a with live := live })
  | none => (some "pointer not found in allocations", a)

/-- A call made by a client of the allocator. -/
inductive Op where
  | malloc (n : Nat)
  | free (p : Pointer)
deriving DecidableEq

/-- The allocator after one call. -/
def step (a : TestAllocator) : Op → TestAllocator
  | .malloc n => (Malloc a n).2
  | .free p => (Free a p).2

/-- The allocator after a sequence of calls. -/
def run (a : TestAllocator) (ops : List Op) : TestAllocator :=
  ops.foldl step a

/-- A zero-value allocator configured with `SetMaxMemory M` and `SetMaxFree F`
(`M = F = 0` is the zero value itself). -/
def config (M F : Int) : TestAllocator :=
  SetMaxFree (SetMaxMemory zeroValue M) F

/-- Sum of the lengths of a list of blocks. -/
def totalLen (s : List Block) : Int :=
  (s.map fun b => (b.len : Int)).sum

/-- The pointers returned by the `Malloc` calls of a sequence of calls started on `a`. -/
def returned (a : TestAllocator) : List Op → List Pointer
  | [] => []
  | Op.malloc n :: ops => (Malloc a n).1 :: returned (Malloc a n).2 ops
  | Op.free p :: ops => returned (Free a p).2 ops

/-- The blocks the allocator holds: the live list followed by the free list. -/
def tracked (a : TestAllocator) : List Block := a.live ++ a.free

/-- Result of `Free` on a handle that is the base of the live block `b` at index `k`. -/
def freeFound (a : TestAllocator) (k : Nat) (b : Block) : Option String × TestAllocator :=
  if a.maxfree = 0 ∨ a.currfree + b.len < a.maxfree then
    (none, { a with live := swapRemove a.live k, free := a.free ++ [b],
                    currfree := a.currfree + b.len })
  else
    (none, { a with live := swapRemove a.live k })

/-- Result of `Malloc` when the scan selects the free block `b` at index `k`. -/
def mallocReuse (a : TestAllocator) (k : Nat) (b : Block) : Pointer × TestAllocator :=
  (b.ptr, { a with free := swapRemove a.free k, live := a.live ++ [b],
                   currfree := a.currfree - b.len, currlive := a.currlive + b.len })

/-- Result of `Malloc` when the scan selects nothing (lines 89-96). -/
def mallocFresh (a : TestAllocator) (n : Nat) : Pointer × TestAllocator :=
  if a.maxmem ≠ 0 ∧ a.currlive + n + a.currfree > a.maxmem then (none, a)
  else ((makeBytes a.heap n).1.ptr,
    { a with currlive := a.currlive + n, live := a.live ++ [(makeBytes a.heap n).1],
             heap := (makeBytes a.heap n).2 })

/-- Two blocks occupy disjoint address ranges. -/
def Apart (b c : Block) : Prop :=
  b.base + b.len ≤ c.base ∨ c.base + c.len ≤ b.base

/-- A block produced by `make` below the heap cursor `heap`: a zero-size block sits at
`zerobase`, any other strictly above it and within the addresses handed out so far. -/
def Placed (heap : Nat) (b : Block) : Prop :=
  (b.len = 0 → b.base = zerobase) ∧ (0 < b.len → zerobase < b.base) ∧
    b.base + b.len ≤ heap + 1

/-- What holds of every allocator reached from a configured zero value. -/
structure Inv (a : TestAllocator) : Prop where
  apart : (a.live ++ a.free).Pairwise Apart
  placed : ∀ b ∈ a.live ++ a.free, Placed a.heap b
  currfree_eq : a.currfree = totalLen a.free
  live_le : totalLen a.live ≤ a.currlive
  cap : 0 < a.maxmem → totalLen a.live + totalLen a.free ≤ a.maxmem
  freecap : 0 < a.maxfree → a.currfree ≤ a.maxfree
  nofree : a.maxfree < 0 → a.free = []

/-- The interface `Allocator` (lines 10-18): an allocator with states `σ` whose methods
return their result together with the state they leave the allocator in. -/
structure Allocator (σ : Type) where
  Malloc : σ → Nat → Pointer × σ
  Free : σ → Pointer → Option String × σ

/-- The `TestAllocator` as an implementation of the interface `Allocator`. -/
def testAllocator : Allocator TestAllocator :=
  { Malloc := Malloc, Free := Free }

/-- A Go slice `[]T` as this package sees it: its data pointer (`unsafe.SliceData`) and its
number of elements. The nil slice has the nil data pointer. -/
structure Slice where
  data : Pointer
  len : Nat
deriving DecidableEq

/-- The nil slice. -/
def Slice.nil : Slice := ⟨none, 0⟩

/-- Outcome of a call that can panic: `fatal` is the panic, with its message and the allocator
state at that point; `done` is a normal return of an error value and the state afterwards. -/
inductive Outcome (σ : Type) where
  | fatal (msg : String) (s : σ)
  | done (err : Option String) (s : σ)
deriving DecidableEq

/-- The generic function `Malloc[T]` (lines 21-28), `sizeofT` being `unsafe.Sizeof` of the
element type: the returned slice and the allocator state afterwards. -/
def Generic.Malloc {σ : Type} (alloc : Allocator σ) (sizeofT : Nat) (s : σ) (n : Nat) :
    Slice × σ :=
  let r := alloc.Malloc s (n * sizeofT)
  if r.1 = none then (Slice.nil, r.2) else (⟨r.1, n⟩, r.2)

/-- The generic function `Free[T]` (lines 32-37). -/
def Generic.Free {σ : Type} (alloc : Allocator σ) (s : σ) (b : Slice) : Outcome σ :=
  if b.data = none then Outcome.fatal "nil pointer argument to Free" s
  else Outcome.done (alloc.Free s b.data).1 (alloc.Free s b.data).2

/-- An allocator that behaves as `alloc` and records every call made to it. -/
def recording {σ : Type} (alloc : Allocator σ) : Allocator (σ × List Op) :=
  { Malloc := fun s n => ((alloc.Malloc s.1 n).1, ((alloc.Malloc s.1 n).2, s.2 ++ [Op.malloc n]))
    Free := fun s p => ((alloc.Free s.1 p).1, ((alloc.Free s.1 p).2, s.2 ++ [Op.free p])) }

/-- Two's-complement wrap-around of the arithmetic on a 64-bit Go `int`. -/
def wrap64 (x : Int) : Int := (x + 2 ^ 63) % 2 ^ 64 - 2 ^ 63

/-- The values of a 64-bit Go `int`. -/
def InRange (x : Int) : Prop := -(2 ^ 63) ≤ x ∧ x < 2 ^ 63

/-- What `make([]byte, n)` can have done when it is reached: `none` when it panics (a negative
or unallocatable length), otherwise a slice of `n` zero bytes, whose length is a Go slice
length. Nothing is assumed about the address of the slice. -/
def MakeSpec (n : Int) (made : Option Block) : Prop :=
  ∀ b, made = some b → (b.len : Int) = n ∧ b.len < maxInt ∧ ∀ x ∈ b.bytes, x = 0

/-- Method `TestAllocator.Malloc` (lines 70-97) with the arithmetic of a 64-bit `int`: every
sum and difference of the counters wraps around, the size `n` is any `int`, and `made`
is what `make([]byte, n)` does if line 93 is reached. The result is `none` when the call
panics in `make`, otherwise the returned pointer and the allocator afterwards. A slice length
`l` satisfies `l >= n` exactly when `l` is at least `n.toNat`. The field `heap` is not used. -/
def Malloc64 (a : TestAllocator) (n : Int) (made : Option Block) :
    Option (Pointer × TestAllocator) :=
  let r := scanFree n.toNat a.free 0 (-1, maxInt)
  let freeMatch := r.1
  let minFreeMatch := r.2
  if 0 ≤ freeMatch then
    let nowlive := a.free.getD freeMatch.toNat default
    some (nowlive.ptr,
      { a with
        free := swapRemove a.free freeMatch.toNat
        live := a.live ++ [nowlive]
        currfree := wrap64 (a.currfree - minFreeMatch)
        currlive := wrap64 (a.currlive + minFreeMatch) })
  else
    let currlive := wrap64 (a.currlive + n)
    if a.maxmem ≠ 0 ∧ wrap64 (currlive + a.currfree) > a.maxmem then some (none, a)
    else
      match made with
      | none => none
      | some b => some (b.ptr, { a with currlive := currlive, live := a.live ++ [b] })

/-- Method `TestAllocator.Free` (lines 100-119) with the arithmetic of a 64-bit `int`. -/
def Free64 (a : TestAllocator) (p : Pointer) : Option String × TestAllocator :=
  match findLive p a.live 0 with
  | some i =>
    let freed := a.live.getD i default
    let live := swapRemove a.live i
    let currfree := wrap64 (a.currfree + freed.len)
    if a.maxfree = 0 ∨ currfree < a.maxfree then
      (none, { a with live := live, free := a.free ++ [freed], currfree := currfree })
    else
      (none, { a with live := live })
  | none => (some "pointer not found in allocations", a)

/-- A call made by a client, for the 64-bit model: a `Malloc` call carries what `make` does
if the call reaches it. -/
inductive Op64 where
  | malloc (n : Int) (made : Option Block)
  | free (p : Pointer)

/-- The allocator after one call, `none` if the call panicked. -/
def step64 (a : TestAllocator) : Op64 → Option TestAllocator
  | .malloc n made => (Malloc64 a n made).map Prod.snd
  | .free p => some (Free64 a p).2

/-- The allocator after a sequence of calls, `none` if one of them panicked. -/
def run64 (a : TestAllocator) : List Op64 → Option TestAllocator
  | [] => some a
  | op :: ops =>
    match step64 a op with
    | none => none
    | some a2 => run64 a2 ops

/-- One GiB, the block size of the wrap-around scenario. -/
def gib : Nat := 2 ^ 30

/-- The one-GiB block of the wrap-around scenario, at address 1. -/
def gibBlock : Block := ⟨1, List.replicate gib 0⟩

/-- The two-GiB block allocated at the end of the wrap-around scenario. -/
def bigBlock : Block := ⟨gib + 1, List.replicate (2 * gib) 0⟩

/-- One reuse cycle: `Malloc` of one GiB, served from the free list, and `Free` of it. -/
def reuseCycle : List Op64 :=
  [Op64.malloc gib none, Op64.free (some 1)]

/-- The wrap-around scenario: allocate and free a one-GiB block, repeat the reuse cycle until
`Malloc` has been called `2 ^ 33` times in all, then allocate two GiB. -/
def wrapTrace : List Op64 :=
  [Op64.malloc gib (some gibBlock), Op64.free (some 1)] ++
    (List.replicate (2 ^ 33 - 1) reuseCycle).flatten ++ [Op64.malloc (2 * gib) (some bigBlock)]

/-- The allocator between two reuse cycles: cap two GiB, the block `blk` in the free list and
`currlive` at `c`. -/
def cycleState (blk : Block) (c : Int) : TestAllocator :=
  { maxmem := 2 * gib, currlive := c, live := [], currfree := gib, maxfree := 0,
    free := [blk], heap := 0 }

/-- The allocator at the end of the wrap-around scenario. -/
def wrapFinal : TestAllocator :=
  { maxmem := 2 * gib, currlive := -(2 ^ 63) + 2 * gib, live := [bigBlock], currfree := gib,
    maxfree := 0, free := [gibBlock], heap := 0 }

/-! ## The free-list scan -/

theorem scanFree_spec (n : Nat) (l : List Block) :
    ∀ (i : Nat) (fm : Int) (mfm : Nat),
      ((∀ b ∈ l, ¬ (n ≤ b.len ∧ b.len < mfm)) ∧ scanFree n l i (fm, mfm) = (fm, mfm)) ∨
      (∃ k b, l[k]? = some b ∧ scanFree n l i (fm, mfm) = (((i + k : Nat) : Int), b.len) ∧
        n ≤ b.len ∧ b.len < mfm ∧
        (∀ (j : Nat) (c : Block), l[j]? = some c → n ≤ c.len → b.len ≤ c.len) ∧
        (∀ (j : Nat) (c : Block), j < k → l[j]? = some c → n ≤ c.len → b.len < c.len)) := by
  induction l with
  | nil => intro i fm mfm; left; simp [scanFree]
  | cons b rest ih =>
    intro i fm mfm
    by_cases hc : n ≤ b.len ∧ b.len < mfm
    · right
      rcases ih (i + 1) (i : Int) b.len with ⟨hno, hr⟩ | ⟨k, c, hk, hr, h1, h2, h3, h4⟩
      · refine ⟨0, b, by simp, ?_, hc.1, hc.2, ?_, ?_⟩
        · simp [scanFree, hc, hr]
        · intro j c hj hn
          cases j with
          | zero => simp at hj; subst hj; exact le_refl _
          | succ j =>
            simp at hj
            have := hno c (List.getElem?_mem hj)
            omega
        · intro j c hj; omega
      · refine ⟨k + 1, c, by simpa using hk, ?_, h1, by omega, ?_, ?_⟩
        · simp only [scanFree, hc, and_self, if_true, hr]
          congr 1; push_cast; ring
        · intro j d hj hn
          cases j with
          | zero => simp at hj; subst hj; omega
          | succ j => simp at hj; exact h3 j d hj hn
        · intro j d hjk hj hn
          cases j with
          | zero => simp at hj; subst hj; omega
          | succ j => simp at hj; exact h4 j d (by omega) hj hn
    · rcases ih (i + 1) fm mfm with ⟨hno, hr⟩ | ⟨k, c, hk, hr, h1, h2, h3, h4⟩
      · left
        refine ⟨?_, ?_⟩
        · intro d hd
          rcases List.mem_cons.1 hd with rfl | hd
          · exact hc
          · exact hno d hd
        · simp [scanFree, hc, hr]
      · right
        refine ⟨k + 1, c, by simpa using hk, ?_, h1, h2, ?_, ?_⟩
        · simp only [scanFree, hc, if_false, hr]
          congr 1; push_cast; ring
        · intro j d hj hn
          cases j with
          | zero => simp at hj; subst hj; omega
          | succ j => simp at hj; exact h3 j d hj hn
        · intro j d hjk hj hn
          cases j with
          | zero => simp at hj; subst hj; omega
          | succ j => simp at hj; exact h4 j d (by omega) hj hn

/-! ## Swap-with-last removal -/

theorem set_last_perm (last : Block) :
    ∀ (xs : List Block) (i : Nat) (b : Block), xs[i]? = some b →
      (xs ++ [last]).Perm (b :: xs.set i last) := by
  intro xs
  induction xs with
  | nil => intro i b h; simp at h
  | cons x xs ih =>
    intro i b h
    cases i with
    | zero =>
      simp at h; subst h
      simp
    | succ i =>
      simp at h
      have h1 := ih i b h
      simp only [List.cons_append, List.set_cons_succ]
      exact (List.Perm.cons x h1).trans (List.Perm.swap b x _)

theorem swapRemove_perm (l : List Block) (i : Nat) (b : Block) (h : l[i]? = some b) :
    l.Perm (b :: swapRemove l i) := by
  rcases List.eq_nil_or_concat l with rfl | ⟨xs, last, rfl⟩
  · simp at h
  · rw [List.concat_eq_append] at h ⊢
    have hlast : (xs ++ [last]).getD ((xs ++ [last]).length - 1) default = last := by simp
    unfold swapRemove
    rw [hlast]
    have hi : i < xs.length + 1 := by
      have := (List.getElem?_eq_some.1 h).1
      simpa using this
    by_cases hlt : i < xs.length
    · rw [List.set_append_left i last hlt, List.dropLast_concat]
      have hb : xs[i]? = some b := by
        rw [List.getElem?_append_left hlt] at h; exact h
      exact set_last_perm last xs i b hb
    · have hie : i = xs.length := by omega
      subst hie
      have hb : b = last := by simpa using h.symm
      subst hb
      rw [List.set_append_right _ _ (le_refl _)]
      simp

theorem totalLen_append (s t : List Block) : totalLen (s ++ t) = totalLen s + totalLen t := by
  simp [totalLen]

theorem totalLen_perm {s t : List Block} (h : s.Perm t) : totalLen s = totalLen t := by
  unfold totalLen
  exact (h.map _).sum_eq

theorem totalLen_nonneg (s : List Block) : 0 ≤ totalLen s := by
  unfold totalLen
  apply List.sum_nonneg
  intro x hx
  rcases List.mem_map.1 hx with ⟨b, _, rfl⟩
  exact Int.ofNat_nonneg _

theorem totalLen_swapRemove (l : List Block) (i : Nat) (b : Block) (h : l[i]? = some b) :
    totalLen l = b.len + totalLen (swapRemove l i) := by
  rw [totalLen_perm (swapRemove_perm l i b h)]
  simp [totalLen]

/-! ## The live-list search -/

theorem findLive_eq_none (p : Pointer) (l : List Block) :
    ∀ i, findLive p l i = none ↔ ∀ b ∈ l, b.ptr ≠ p := by
  induction l with
  | nil => intro i; simp [findLive]
  | cons b rest ih =>
    intro i
    by_cases hb : b.ptr = p
    · simp [findLive, hb]
    · simp [findLive, hb, ih (i + 1)]

theorem findLive_eq_some (p : Pointer) (l : List Block) :
    ∀ i j, findLive p l i = some j →
      ∃ k b, j = i + k ∧ l[k]? = some b ∧ b.ptr = p ∧
        ∀ (m : Nat) (c : Block), m < k → l[m]? = some c → c.ptr ≠ p := by
  induction l with
  | nil => intro i j h; simp [findLive] at h
  | cons b rest ih =>
    intro i j h
    by_cases hb : b.ptr = p
    · simp [findLive, hb] at h
      exact ⟨0, b, by omega, by simp, hb, by intro m c hm; omega⟩
    · simp only [findLive, hb, if_false] at h
      rcases ih (i + 1) j h with ⟨k, c, hj, hk, hc, hmin⟩
      refine ⟨k + 1, c, by omega, by simpa using hk, hc, ?_⟩
      intro m d hm hd
      cases m with
      | zero => simp at hd; subst hd; exact hb
      | succ m => simp at hd; exact hmin m d (by omega) hd

/-! ## Case analysis of the two operations -/

theorem Free_cases (a : TestAllocator) (p : Pointer) :
    ((∀ b ∈ a.live, b.ptr ≠ p) ∧ Free a p = (some "pointer not found in allocations", a)) ∨
    (∃ k b, a.live[k]? = some b ∧ b.ptr = p ∧
      (∀ (m : Nat) (c : Block), m < k → a.live[m]? = some c → c.ptr ≠ p) ∧
      Free a p = freeFound a k b) := by
  cases hf : findLive p a.live 0 with
  | none =>
    left
    exact ⟨(findLive_eq_none p a.live 0).1 hf, by simp [Free, hf]⟩
  | some j =>
    right
    rcases findLive_eq_some p a.live 0 j hf with ⟨k, b, hj, hk, hb, hmin⟩
    have hjk : j = k := by omega
    subst hjk
    refine ⟨j, b, hk, hb, hmin, ?_⟩
    simp [Free, hf, freeFound, hk]

theorem Malloc_cases (a : TestAllocator) (n : Nat) :
    ((∀ b ∈ a.free, ¬ (n ≤ b.len ∧ b.len < maxInt)) ∧ Malloc a n = mallocFresh a n) ∨
    (∃ k b, a.free[k]? = some b ∧ n ≤ b.len ∧ b.len < maxInt ∧
      (∀ (j : Nat) (c : Block), a.free[j]? = some c → n ≤ c.len → b.len ≤ c.len) ∧
      (∀ (j : Nat) (c : Block), j < k → a.free[j]? = some c → n ≤ c.len → b.len < c.len) ∧
      Malloc a n = mallocReuse a k b) := by
  rcases scanFree_spec n a.free 0 (-1) maxInt with ⟨hno, hr⟩ | ⟨k, b, hk, hr, h1, h2, h3, h4⟩
  · left
    refine ⟨hno, ?_⟩
    simp [Malloc, hr, mallocFresh]
  · right
    refine ⟨k, b, hk, h1, h2, h3, h4, ?_⟩
    simp [Malloc, hr, mallocReuse, hk]

/-! ## The invariant of reachable allocators -/

theorem Apart_symm {b c : Block} (h : Apart b c) : Apart c b := Or.symm h

theorem pairwise_apart_perm {s t : List Block} (h : s.Perm t) (hs : s.Pairwise Apart) :
    t.Pairwise Apart :=
  (h.pairwise_iff (fun hbc => Apart_symm hbc)).1 hs

theorem makeBytes_len (heap n : Nat) : (makeBytes heap n).1.len = n := by
  unfold makeBytes
  split <;> simp_all [Block.len]

theorem makeBytes_heap (heap n : Nat) : (makeBytes heap n).2 = heap + n := by
  unfold makeBytes
  split <;> simp_all

theorem makeBytes_base (heap n : Nat) :
    (makeBytes heap n).1.base = if n = 0 then zerobase else heap + 1 := by
  unfold makeBytes
  split <;> simp_all

theorem makeBytes_bytes (heap n : Nat) : (makeBytes heap n).1.bytes = List.replicate n 0 := by
  unfold makeBytes
  split <;> simp_all

theorem makeBytes_placed (heap n : Nat) : Placed (heap + n) (makeBytes heap n).1 := by
  unfold Placed
  rw [makeBytes_len, makeBytes_base]
  unfold zerobase
  split <;> omega

theorem makeBytes_apart (heap n : Nat) (c : Block) (hc : Placed heap c) :
    Apart (makeBytes heap n).1 c := by
  unfold Placed zerobase at hc
  unfold Apart
  rw [makeBytes_len, makeBytes_base]
  unfold zerobase
  split <;> omega

theorem Placed_mono {h1 h2 : Nat} (h : h1 ≤ h2) {b : Block} (hb : Placed h1 b) :
    Placed h2 b := by
  unfold Placed at *
  omega

theorem Inv_config (M F : Int) : Inv (config M F) := by
  constructor <;> simp [config, SetMaxFree, SetMaxMemory, zeroValue, totalLen] <;> omega

theorem Inv_mallocReuse {a : TestAllocator} (h : Inv a) (k : Nat) (b : Block)
    (hk : a.free[k]? = some b) : Inv (mallocReuse a k b).2 := by
  have hp := swapRemove_perm a.free k b hk
  have ht := totalLen_swapRemove a.free k b hk
  have hperm : (a.live ++ a.free).Perm ((a.live ++ [b]) ++ swapRemove a.free k) := by
    rw [List.append_assoc]
    exact List.Perm.append_left _ hp
  have hc := h.currfree_eq
  have hl := h.live_le
  constructor
  · exact pairwise_apart_perm hperm h.apart
  · intro c hcm
    exact h.placed c (hperm.mem_iff.2 hcm)
  · simp only [mallocReuse]; omega
  · simp only [mallocReuse, totalLen_append]
    simp only [totalLen, List.map_cons, List.map_nil, List.sum_cons, List.sum_nil] at *
    omega
  · intro hm
    have := h.cap hm
    simp only [mallocReuse, totalLen_append]
    simp only [totalLen, List.map_cons, List.map_nil, List.sum_cons, List.sum_nil] at *
    omega
  · intro hm
    have := h.freecap hm
    simp only [mallocReuse]
    omega
  · intro hm
    have := h.nofree hm
    rw [this] at hk
    simp at hk

theorem Inv_mallocFresh {a : TestAllocator} (h : Inv a) (n : Nat) : Inv (mallocFresh a n).2 := by
  unfold mallocFresh
  split
  · exact h
  · rename_i hcond
    have hperm : ((makeBytes a.heap n).1 :: (a.live ++ a.free)).Perm
        ((a.live ++ [(makeBytes a.heap n).1]) ++ a.free) := by
      rw [List.append_assoc]
      exact (@List.perm_middle Block (makeBytes a.heap n).1 a.live a.free).symm
    have hc := h.currfree_eq
    have hl := h.live_le
    have hf := totalLen_nonneg a.free
    have hlen := makeBytes_len a.heap n
    constructor
    · refine pairwise_apart_perm hperm ?_
      refine List.pairwise_cons.2 ⟨?_, h.apart⟩
      intro c hcm
      exact makeBytes_apart a.heap n c (h.placed c hcm)
    · intro c hcm
      simp only
      rw [makeBytes_heap]
      rcases List.mem_cons.1 (hperm.mem_iff.2 hcm) with rfl | hc2
      · exact makeBytes_placed a.heap n
      · exact Placed_mono (Nat.le_add_right _ _) (h.placed c hc2)
    · exact hc
    · simp only [totalLen_append]
      simp only [totalLen, List.map_cons, List.map_nil, List.sum_cons, List.sum_nil, hlen] at *
      omega
    · intro hm
      simp only at hm
      simp only [totalLen_append]
      simp only [totalLen, List.map_cons, List.map_nil, List.sum_cons, List.sum_nil, hlen] at *
      omega
    · exact h.freecap
    · exact h.nofree

theorem Inv_Malloc {a : TestAllocator} (h : Inv a) (n : Nat) : Inv (Malloc a n).2 := by
  rcases Malloc_cases a n with ⟨_, hr⟩ | ⟨k, b, hk, _, _, _, _, hr⟩
  · rw [hr]; exact Inv_mallocFresh h n
  · rw [hr]; exact Inv_mallocReuse h k b hk

theorem Inv_freeFound {a : TestAllocator} (h : Inv a) (k : Nat) (b : Block)
    (hk : a.live[k]? = some b) : Inv (freeFound a k b).2 := by
  have hp := swapRemove_perm a.live k b hk
  have ht := totalLen_swapRemove a.live k b hk
  have hc := h.currfree_eq
  have hl := h.live_le
  have hf := totalLen_nonneg a.free
  have hs := totalLen_nonneg (swapRemove a.live k)
  unfold freeFound
  split
  · rename_i hcond
    have hperm : (a.live ++ a.free).Perm (swapRemove a.live k ++ (a.free ++ [b])) := by
      refine (List.Perm.append_right a.free hp).trans ?_
      rw [List.cons_append, ← List.append_assoc]
      exact (List.perm_append_singleton b _).symm
    constructor
    · exact pairwise_apart_perm hperm h.apart
    · intro c hcm
      exact h.placed c (hperm.mem_iff.2 hcm)
    · simp only [totalLen_append]
      simp only [totalLen, List.map_cons, List.map_nil, List.sum_cons, List.sum_nil] at *
      omega
    · simp only; omega
    · intro hm
      have := h.cap hm
      simp only [totalLen_append]
      simp only [totalLen, List.map_cons, List.map_nil, List.sum_cons, List.sum_nil] at *
      omega
    · intro hm
      simp only at hm ⊢
      omega
    · intro hm
      simp only at hm
      omega
  · have hperm : (a.live ++ a.free).Perm (b :: (swapRemove a.live k ++ a.free)) :=
      List.Perm.append_right a.free hp
    constructor
    · exact (List.pairwise_cons.1 (pairwise_apart_perm hperm h.apart)).2
    · intro c hcm
      exact h.placed c (hperm.mem_iff.2 (List.mem_cons_of_mem _ hcm))
    · exact hc
    · simp only; omega
    · intro hm
      have := h.cap hm
      simp only at hm ⊢
      omega
    · exact h.freecap
    · exact h.nofree

theorem Inv_Free {a : TestAllocator} (h : Inv a) (p : Pointer) : Inv (Free a p).2 := by
  rcases Free_cases a p with ⟨_, hr⟩ | ⟨k, b, hk, _, _, hr⟩
  · rw [hr]; exact h
  · rw [hr]; exact Inv_freeFound h k b hk

theorem Inv_step {a : TestAllocator} (h : Inv a) (op : Op) : Inv (step a op) := by
  cases op with
  | malloc n => exact Inv_Malloc h n
  | free p => exact Inv_Free h p

theorem Inv_run {a : TestAllocator} (h : Inv a) (ops : List Op) : Inv (run a ops) := by
  induction ops generalizing a with
  | nil => exact h
  | cons op ops ih => exact ih (Inv_step h op)

/-! ## The limits never change -/

theorem Malloc_limits (a : TestAllocator) (n : Nat) :
    (Malloc a n).2.maxmem = a.maxmem ∧ (Malloc a n).2.maxfree = a.maxfree := by
  rcases Malloc_cases a n with ⟨_, hr⟩ | ⟨k, b, _, _, _, _, _, hr⟩
  · rw [hr]; unfold mallocFresh; split <;> simp
  · rw [hr]; simp [mallocReuse]

theorem Free_limits (a : TestAllocator) (p : Pointer) :
    (Free a p).2.maxmem = a.maxmem ∧ (Free a p).2.maxfree = a.maxfree := by
  rcases Free_cases a p with ⟨_, hr⟩ | ⟨k, b, _, _, _, hr⟩
  · rw [hr]; simp
  · rw [hr]; unfold freeFound; split <;> simp

theorem run_limits (a : TestAllocator) (ops : List Op) :
    (run a ops).maxmem = a.maxmem ∧ (run a ops).maxfree = a.maxfree := by
  induction ops generalizing a with
  | nil => exact ⟨rfl, rfl⟩
  | cons op ops ih =>
    have h := ih (step a op)
    cases op with
    | malloc n =>
      have h2 := Malloc_limits a n
      exact ⟨h.1.trans h2.1, h.2.trans h2.2⟩
    | free p =>
      have h2 := Free_limits a p
      exact ⟨h.1.trans h2.1, h.2.trans h2.2⟩

theorem Inv_reach (M F : Int) (ops : List Op) : Inv (run (config M F) ops) :=
  Inv_run (Inv_config M F) ops

theorem reach_maxmem (M F : Int) (ops : List Op) : (run (config M F) ops).maxmem = M :=
  (run_limits (config M F) ops).1

theorem reach_maxfree (M F : Int) (ops : List Op) : (run (config M F) ops).maxfree = F :=
  (run_limits (config M F) ops).2

/-- Two tracked blocks of a reachable allocator that start at the same address are both
zero-size. -/
theorem same_base_zero {heap : Nat} {b c : Block} (hb : Placed heap b) (hc : Placed heap c)
    (hbc : Apart b c) (he : b.ptr = c.ptr) : b.len = 0 ∧ c.len = 0 := by
  unfold Placed zerobase at hb hc
  unfold Apart at hbc
  have : b.base = c.base := by simpa [Block.ptr] using he
  omega

/-- After `Free` has removed the block it found, a second `Free` of the same handle fails
when no remaining live block starts there. -/
theorem Free_error_iff (a : TestAllocator) (p : Pointer) :
    (Free a p).1 ≠ none ↔ ∀ b ∈ a.live, b.ptr ≠ p := by
  rcases Free_cases a p with ⟨hno, hr⟩ | ⟨k, b, hk, hb, _, hr⟩
  · rw [hr]; simp; exact hno
  · rw [hr]
    have hmem := List.getElem?_mem hk
    constructor
    · intro h; exfalso; apply h; unfold freeFound; split <;> rfl
    · intro h; exact absurd hb (h b hmem)

theorem freeFound_fst (a : TestAllocator) (k : Nat) (b : Block) :
    (freeFound a k b).1 = none := by
  unfold freeFound; split <;> rfl

theorem freeFound_live (a : TestAllocator) (k : Nat) (b : Block) :
    (freeFound a k b).2.live = swapRemove a.live k := by
  unfold freeFound; split <;> rfl

theorem Inv_live_apart {a : TestAllocator} (h : Inv a) : a.live.Pairwise Apart :=
  (List.pairwise_append.1 h.apart).1

theorem Inv_live_placed {a : TestAllocator} (h : Inv a) {b : Block} (hb : b ∈ a.live) :
    Placed a.heap b :=
  h.placed b (List.mem_append_left _ hb)

/-! ## C1: double free -/

/-- C1, as stated, fails: after two zero-size allocations, which return the same handle,
`Free` of that handle succeeds twice in a row. -/
theorem C1_counterexample :
    (Malloc zeroValue 0).1 = some zerobase ∧
    (Malloc (Malloc zeroValue 0).2 0).1 = some zerobase ∧
    (Free (run zeroValue [Op.malloc 0, Op.malloc 0]) (some zerobase)).1 = none ∧
    (Free (Free (run zeroValue [Op.malloc 0, Op.malloc 0]) (some zerobase)).2
      (some zerobase)).1 = none := by
  decide

/-- C1 (amended): in every allocator reached from a configured zero value by `Malloc` and
`Free` calls, for every live block that is not zero-size, or that is the only live block at
its address, `Free` of its handle returns nil and an immediately following second `Free` of
the same handle returns an error. -/
theorem C1_double_free_detected (M F : Int) (ops : List Op) (b : Block)
    (hb : b ∈ (run (config M F) ops).live)
    (hu : 0 < b.len ∨
      (run (config M F) ops).live.countP (fun c => decide (c.ptr = b.ptr)) = 1) :
    (Free (run (config M F) ops) b.ptr).1 = none ∧
    (Free (Free (run (config M F) ops) b.ptr).2 b.ptr).1 ≠ none := by
  have hinv := Inv_reach M F ops
  generalize run (config M F) ops = s at hb hu hinv
  rcases Free_cases s b.ptr with ⟨hno, _⟩ | ⟨k, c, hk, hc, _, hr⟩
  · exact absurd rfl (hno b hb)
  · rw [hr]
    refine ⟨freeFound_fst s k c, ?_⟩
    rw [Free_error_iff, freeFound_live]
    have hp := swapRemove_perm s.live k c hk
    intro d hd hdb
    rcases hu with hpos | hcnt
    · have hcd : Apart c d :=
        (List.pairwise_cons.1 (pairwise_apart_perm hp (Inv_live_apart hinv))).1 d hd
      have hdl : d ∈ s.live := hp.mem_iff.2 (List.mem_cons_of_mem _ hd)
      have hcl : c ∈ s.live := List.getElem?_mem hk
      have hz := same_base_zero (Inv_live_placed hinv hcl) (Inv_live_placed hinv hdl) hcd
        (hc.trans hdb.symm)
      have hpb := Inv_live_placed hinv hb
      have hpd := Inv_live_placed hinv hdl
      unfold Placed zerobase at hpb hpd
      have : d.base = b.base := by simpa [Block.ptr] using hdb
      omega
    · rw [hp.countP_eq, List.countP_cons_of_pos _ _ (by simpa using hc)] at hcnt
      have h0 : (swapRemove s.live k).countP (fun c => decide (c.ptr = b.ptr)) = 0 := by omega
      have := (List.countP_eq_zero.1 h0) d hd
      simp [hdb] at this

/-- Witness for C1: a four-byte block allocated on the zero value. -/
theorem C1_double_free_detected_witness :
    (⟨1, [0, 0, 0, 0]⟩ : Block) ∈ (run (config 0 0) [Op.malloc 4]).live ∧
    (Free (run (config 0 0) [Op.malloc 4]) (some 1)).1 = none ∧
    (Free (Free (run (config 0 0) [Op.malloc 4]) (some 1)).2 (some 1)).1 ≠ none :=
  ⟨by decide,
    C1_double_free_detected 0 0 [Op.malloc 4] ⟨1, [0, 0, 0, 0]⟩ (by decide)
      (Or.inl (by decide))⟩

/-! ## C2: unknown handles -/

theorem mem_of_mem_swapRemove {l : List Block} {k : Nat} {b d : Block} (hk : l[k]? = some b)
    (hd : d ∈ swapRemove l k) : d ∈ l :=
  (swapRemove_perm l k b hk).mem_iff.2 (List.mem_cons_of_mem _ hd)

theorem Malloc_tracked (a : TestAllocator) (n : Nat) (d : Block)
    (hd : d ∈ tracked (Malloc a n).2) : d ∈ tracked a ∨ d.ptr = (Malloc a n).1 := by
  rcases Malloc_cases a n with ⟨_, hr⟩ | ⟨k, b, hk, _, _, _, _, hr⟩
  · rw [hr] at hd ⊢
    unfold mallocFresh at hd ⊢
    by_cases hcond : a.maxmem ≠ 0 ∧ a.currlive + n + a.currfree > a.maxmem
    · rw [if_pos hcond] at hd
      exact Or.inl hd
    · rw [if_neg hcond] at hd ⊢
      simp only [tracked, List.mem_append, List.mem_singleton] at hd ⊢
      rcases hd with (h | h) | h
      · exact Or.inl (Or.inl h)
      · right; rw [h]
      · exact Or.inl (Or.inr h)
  · rw [hr] at hd ⊢
    simp only [mallocReuse, tracked, List.mem_append, List.mem_singleton] at hd ⊢
    rcases hd with (h | h) | h
    · exact Or.inl (Or.inl h)
    · right; rw [h]
    · exact Or.inl (Or.inr (mem_of_mem_swapRemove hk h))

theorem Free_tracked (a : TestAllocator) (p : Pointer) (d : Block)
    (hd : d ∈ tracked (Free a p).2) : d ∈ tracked a := by
  rcases Free_cases a p with ⟨_, hr⟩ | ⟨k, b, hk, _, _, hr⟩
  · rw [hr] at hd; exact hd
  · rw [hr] at hd
    unfold freeFound at hd
    split at hd
    · simp only [tracked, List.mem_append, List.mem_singleton] at hd ⊢
      rcases hd with h | h | h
      · exact Or.inl (mem_of_mem_swapRemove hk h)
      · exact Or.inr h
      · left; rw [h]; exact List.getElem?_mem hk
    · simp only [tracked, List.mem_append] at hd ⊢
      rcases hd with h | h
      · exact Or.inl (mem_of_mem_swapRemove hk h)
      · exact Or.inr h

theorem run_tracked (ops : List Op) :
    ∀ (a : TestAllocator) (d : Block), d ∈ tracked (run a ops) →
      d ∈ tracked a ∨ d.ptr ∈ returned a ops := by
  induction ops with
  | nil => intro a d hd; exact Or.inl hd
  | cons op ops ih =>
    intro a d hd
    cases op with
    | malloc n =>
      rcases ih (Malloc a n).2 d hd with h | h
      · rcases Malloc_tracked a n d h with h2 | h2
        · exact Or.inl h2
        · right; simp [returned, h2]
      · right; simp [returned, h]
    | free p =>
      rcases ih (Free a p).2 d hd with h | h
      · exact Or.inl (Free_tracked a p d h)
      · right; simpa [returned] using h

/-- C2: in every allocator state, `Free` of a handle returns an error exactly when the handle
is not the base address of a block of the live list; in particular, on an allocator reached
from a configured zero value, a handle that no `Malloc` call returned always yields an error. -/
theorem C2_unknown_handle :
    (∀ (a : TestAllocator) (p : Pointer),
      (Free a p).1 ≠ none ↔ ∀ b ∈ a.live, b.ptr ≠ p) ∧
    (∀ (M F : Int) (ops : List Op) (p : Pointer),
      p ∉ returned (config M F) ops → (Free (run (config M F) ops) p).1 ≠ none) := by
  refine ⟨Free_error_iff, ?_⟩
  intro M F ops p hp
  rw [Free_error_iff]
  intro b hb hbp
  rcases run_tracked ops (config M F) b (List.mem_append_left _ hb) with h | h
  · simp [tracked, config, SetMaxFree, SetMaxMemory, zeroValue] at h
  · exact hp (hbp ▸ h)

/-- Witness for C2: an address inside a live block, which `Malloc` never returned. -/
theorem C2_unknown_handle_witness :
    some 2 ∉ returned (config 0 0) [Op.malloc 4, Op.malloc 4] ∧
    (Free (run (config 0 0) [Op.malloc 4, Op.malloc 4]) (some 2)).1 ≠ none :=
  ⟨by decide, C2_unknown_handle.2 0 0 [Op.malloc 4, Op.malloc 4] (some 2) (by decide)⟩

/-! ## The memory cap in exact arithmetic -/

/-- With exact integer arithmetic, that is as long as no counter wraps around, `maxmem = M > 0`
bounds the lengths of the live and free-list blocks after every sequence of calls. The code
computes with 64-bit integers, for which the wrap-around scenario below breaks the bound. -/
theorem memory_cap_exact (M F : Int) (hM : 0 < M) (ops : List Op) :
    totalLen (run (config M F) ops).live + totalLen (run (config M F) ops).free ≤ M := by
  have h := (Inv_reach M F ops).cap
  rw [reach_maxmem] at h
  exact h hM

/-! ## C4: the counters and the cap -/

/-- C4 fails on the code: `Free` never decreases `currlive`, so with the cap at 100 a
60-byte block that is allocated, freed and then reused by `Malloc 10` leaves
`currlive + currfree = 120`, although the call returned a handle. -/
theorem C4_counters_exceed_cap :
    (Malloc (run (config 100 0) [Op.malloc 60, Op.free (some 1)]) 10).1 = some 1 ∧
    (Malloc (run (config 100 0) [Op.malloc 60, Op.free (some 1)]) 10).2.currlive = 120 ∧
    (Malloc (run (config 100 0) [Op.malloc 60, Op.free (some 1)]) 10).2.currfree = 0 ∧
    (run (config 100 0) [Op.malloc 60, Op.free (some 1)]).currlive = 60 ∧
    (run (config 100 0) [Op.malloc 60, Op.free (some 1)]).live = [] := by
  decide

/-! ## C5: best fit -/

/-- C5: in every allocator state whose free-list blocks have a Go slice length (below
`math.MaxInt`), if some free-list block has length at least `n`, then `Malloc n` returns the
base address of a free-list block whose length is the least among the free blocks of length
at least `n`, and which has the lowest index among the free blocks of that length. -/
theorem C5_best_fit (a : TestAllocator) (n : Nat)
    (hwf : ∀ b ∈ a.free, b.len < maxInt) (hex : ∃ b ∈ a.free, n ≤ b.len) :
    ∃ k b, a.free[k]? = some b ∧ (Malloc a n).1 = b.ptr ∧ n ≤ b.len ∧
      (∀ c ∈ a.free, n ≤ c.len → b.len ≤ c.len) ∧
      (∀ (j : Nat) (c : Block), a.free[j]? = some c → c.len = b.len → k ≤ j) := by
  rcases Malloc_cases a n with ⟨hno, _⟩ | ⟨k, b, hk, h1, _, h3, h4, hr⟩
  · rcases hex with ⟨b, hb, hn⟩
    exact absurd ⟨hn, hwf b hb⟩ (hno b hb)
  · refine ⟨k, b, hk, by rw [hr]; rfl, h1, ?_, ?_⟩
    · intro c hc hn
      rcases List.getElem?_of_mem hc with ⟨j, hj⟩
      exact h3 j c hj hn
    · intro j c hj hlen
      by_contra hlt
      have := h4 j c (by omega) hj (by omega)
      omega

/-- Witness for C5: free blocks of lengths 4, 2, 2 at bases 1, 5, 7; `Malloc 1` takes the
first block of length 2. -/
theorem C5_best_fit_witness :
    (run zeroValue [Op.malloc 4, Op.malloc 2, Op.malloc 2, Op.free (some 1), Op.free (some 5),
      Op.free (some 7)]).free = [⟨1, [0, 0, 0, 0]⟩, ⟨5, [0, 0]⟩, ⟨7, [0, 0]⟩] ∧
    ∃ k b, (run zeroValue [Op.malloc 4, Op.malloc 2, Op.malloc 2, Op.free (some 1),
        Op.free (some 5), Op.free (some 7)]).free[k]? = some b ∧
      (Malloc (run zeroValue [Op.malloc 4, Op.malloc 2, Op.malloc 2, Op.free (some 1),
        Op.free (some 5), Op.free (some 7)]) 1).1 = b.ptr ∧ 1 ≤ b.len ∧
      (∀ c ∈ (run zeroValue [Op.malloc 4, Op.malloc 2, Op.malloc 2, Op.free (some 1),
        Op.free (some 5), Op.free (some 7)]).free, 1 ≤ c.len → b.len ≤ c.len) ∧
      (∀ (j : Nat) (c : Block), (run zeroValue [Op.malloc 4, Op.malloc 2, Op.malloc 2,
        Op.free (some 1), Op.free (some 5), Op.free (some 7)]).free[j]? = some c →
        c.len = b.len → k ≤ j) :=
  ⟨by decide,
    C5_best_fit (run zeroValue [Op.malloc 4, Op.malloc 2, Op.malloc 2, Op.free (some 1),
      Op.free (some 5), Op.free (some 7)]) 1 (by decide) (by decide)⟩

/-! ## C6: reuse of the block just freed -/

/-- C6, as stated, fails: two 2-byte blocks at bases 1 and 3 are live and the first is freed.
`Free` of the second succeeds and retains it, no other free block is shorter than 2 and at
least 2 long, yet `Malloc 2` returns the first block: a tie goes to the lower index. -/
theorem C6_counterexample :
    (⟨3, [0, 0]⟩ : Block) ∈
      (run zeroValue [Op.malloc 2, Op.malloc 2, Op.free (some 1)]).live ∧
    (Free (run zeroValue [Op.malloc 2, Op.malloc 2, Op.free (some 1)]) (some 3)).1 = none ∧
    (Free (run zeroValue [Op.malloc 2, Op.malloc 2, Op.free (some 1)]) (some 3)).2.free
      = [⟨1, [0, 0]⟩, ⟨3, [0, 0]⟩] ∧
    (∀ c ∈ (run zeroValue [Op.malloc 2, Op.malloc 2, Op.free (some 1)]).free,
      ¬ (2 ≤ c.len ∧ c.len < 2)) ∧
    (Malloc (Free (run zeroValue [Op.malloc 2, Op.malloc 2, Op.free (some 1)])
      (some 3)).2 2).1 = some 1 := by
  decide

/-- C6 (amended): in every allocator state (reachable or not), if `Free h` retains the block
`b` it frees (the free list afterwards is the old one followed by `b`), `b` has a Go slice
length, `n ≤ len b`, and no other free-list block has length at least `n` and at most
`len b`, then `Free h` returned nil and the immediately following `Malloc n` returns
exactly `h`. -/
theorem C6_reuse_just_freed (a : TestAllocator) (h : Pointer) (b : Block) (n : Nat)
    (hret : (Free a h).2.free = a.free ++ [b])
    (hn : n ≤ b.len) (hlen : b.len < maxInt)
    (hother : ∀ c ∈ a.free, ¬ (n ≤ c.len ∧ c.len ≤ b.len)) :
    (Free a h).1 = none ∧ (Malloc (Free a h).2 n).1 = h := by
  have hne : a.free ≠ a.free ++ [b] := by
    intro he
    have := congrArg List.length he
    simp at this
  rcases Free_cases a h with ⟨_, hr⟩ | ⟨k, c, hk, hc, _, hr⟩
  · rw [hr] at hret
    exact absurd hret hne
  · have hcb : c = b := by
      rw [hr] at hret
      unfold freeFound at hret
      split at hret
      · simpa using hret
      · exact absurd hret hne
    subst hcb
    refine ⟨by rw [hr]; exact freeFound_fst a k c, ?_⟩
    rcases Malloc_cases (Free a h).2 n with ⟨hno, _⟩ | ⟨j, d, hj, h1, _, h3, _, hr2⟩
    · exact absurd ⟨hn, hlen⟩ (hno c (by rw [hret]; simp))
    · rw [hr2]
      rw [hret] at hj h3
      have hdc : d.len ≤ c.len :=
        h3 a.free.length c (by simp) hn
      by_cases hjl : j < a.free.length
      · rw [List.getElem?_append_left hjl] at hj
        exact absurd ⟨h1, hdc⟩ (hother d (List.getElem?_mem hj))
      · have hjlt := (List.getElem?_eq_some.1 hj).1
        simp at hjlt
        have hje : j = a.free.length := by omega
        subst hje
        simp at hj
        subst hj
        exact hc

/-- Witness for C6: a 4-byte block is freed next to a free 2-byte block and `Malloc 3`
returns it. -/
theorem C6_reuse_just_freed_witness :
    (Free (run zeroValue [Op.malloc 2, Op.malloc 4, Op.free (some 1)]) (some 3)).1 = none ∧
    (Malloc (Free (run zeroValue [Op.malloc 2, Op.malloc 4, Op.free (some 1)])
      (some 3)).2 3).1 = some 3 :=
  C6_reuse_just_freed (run zeroValue [Op.malloc 2, Op.malloc 4, Op.free (some 1)]) (some 3)
    ⟨3, [0, 0, 0, 0]⟩ 3 (by decide) (by decide) (by decide) (by decide)

/-! ## Fresh allocations -/

theorem Malloc_eq_fresh (a : TestAllocator) (n : Nat) (hno : ∀ b ∈ a.free, ¬ n ≤ b.len) :
    Malloc a n = mallocFresh a n := by
  rcases Malloc_cases a n with ⟨_, hr⟩ | ⟨k, b, hk, h1, _, _, _, _⟩
  · exact hr
  · exact absurd h1 (hno b (List.getElem?_mem hk))

theorem mallocFresh_fst_eq_none (a : TestAllocator) (n : Nat) :
    (mallocFresh a n).1 = none ↔ (a.maxmem ≠ 0 ∧ a.currlive + n + a.currfree > a.maxmem) := by
  unfold mallocFresh
  split
  · rename_i hc; simp only [true_iff]; exact hc
  · rename_i hc; simp only [Block.ptr]; constructor
    · intro h; cases h
    · intro h; exact absurd h hc

theorem mallocFresh_of_ne_none (a : TestAllocator) (n : Nat) (h : (mallocFresh a n).1 ≠ none) :
    mallocFresh a n = ((makeBytes a.heap n).1.ptr,
      { a with currlive := a.currlive + n, live := a.live ++ [(makeBytes a.heap n).1],
               heap := (makeBytes a.heap n).2 }) := by
  have hc : ¬ (a.maxmem ≠ 0 ∧ a.currlive + n + a.currfree > a.maxmem) := fun hc =>
    h ((mallocFresh_fst_eq_none a n).2 hc)
  unfold mallocFresh
  rw [if_neg hc]

theorem Malloc_heap_le (a : TestAllocator) (n : Nat) : a.heap ≤ (Malloc a n).2.heap := by
  rcases Malloc_cases a n with ⟨_, hr⟩ | ⟨k, b, _, _, _, _, _, hr⟩
  · rw [hr]; unfold mallocFresh; split
    · exact le_refl _
    · simp only [makeBytes_heap]; omega
  · rw [hr]; exact le_refl _

theorem Free_heap (a : TestAllocator) (p : Pointer) : (Free a p).2.heap = a.heap := by
  rcases Free_cases a p with ⟨_, hr⟩ | ⟨k, b, _, _, _, hr⟩
  · rw [hr]
  · rw [hr]; unfold freeFound; split <;> rfl

theorem run_heap_le (ops : List Op) : ∀ a : TestAllocator, a.heap ≤ (run a ops).heap := by
  induction ops with
  | nil => intro a; exact le_refl _
  | cons op ops ih =>
    intro a
    cases op with
    | malloc n => exact le_trans (Malloc_heap_le a n) (ih (Malloc a n).2)
    | free p => exact le_trans (le_of_eq (Free_heap a p).symm) (ih (Free a p).2)

theorem run_append (a : TestAllocator) (ops1 ops2 : List Op) :
    run a (ops1 ++ ops2) = run (run a ops1) ops2 := by
  simp [run, List.foldl_append]

/-- A block placed below the heap cursor does not start where a fresh non-empty block does. -/
theorem fresh_base_ne {heap heap2 n : Nat} {d : Block} (hd : Placed heap d)
    (hle : heap ≤ heap2) (hn : 0 < n ∨ 0 < d.len) : d.base ≠ (makeBytes heap2 n).1.base := by
  rw [makeBytes_base]
  unfold Placed zerobase at hd
  unfold zerobase
  split <;> omega

/-! ## C7: a negative `maxfree` suppresses reuse -/

/-- C7, as stated, fails: with `maxfree = -1`, a zero-size block is allocated and freed (it is
discarded: the live and free lists are empty), and the next `Malloc 0` returns the handle of
that freed block again, as the very same slice. -/
theorem C7_counterexample :
    (Malloc (config 0 (-1)) 0).1 = some zerobase ∧
    (run (config 0 (-1)) [Op.malloc 0]).live = [⟨zerobase, []⟩] ∧
    (Free (run (config 0 (-1)) [Op.malloc 0]) (some zerobase)).1 = none ∧
    (run (config 0 (-1)) [Op.malloc 0, Op.free (some zerobase)]).live = [] ∧
    (run (config 0 (-1)) [Op.malloc 0, Op.free (some zerobase)]).free = [] ∧
    (Malloc (run (config 0 (-1)) [Op.malloc 0, Op.free (some zerobase)]) 0).1
      = some zerobase ∧
    (Malloc (run (config 0 (-1)) [Op.malloc 0, Op.free (some zerobase)]) 0).2.live
      = [⟨zerobase, []⟩] := by
  decide

/-- C7 (amended): with `maxfree = F < 0` set on a zero value (and any `maxmem`), after every
sequence of `Malloc` and `Free` calls the free list is empty and `currfree` is 0, and every
`Malloc` that returns a handle takes the path through `make` (it is the result of lines
89-96): the handle is the base of the block `make` creates at that call, that block is appended
to the live list, and the free list is still empty, so no block is ever taken from the free
list. The handle differs from the base of every block that is live at the call, unless both
blocks are zero-size; nothing is said about the addresses of blocks freed earlier. -/
theorem C7_reuse_suppressed (M F : Int) (hF : F < 0) (ops : List Op) :
    (run (config M F) ops).free = [] ∧ (run (config M F) ops).currfree = 0 ∧
    ∀ n : Nat, (Malloc (run (config M F) ops) n).1 ≠ none →
      Malloc (run (config M F) ops) n = mallocFresh (run (config M F) ops) n ∧
      (Malloc (run (config M F) ops) n).1 = (makeBytes (run (config M F) ops).heap n).1.ptr ∧
      (Malloc (run (config M F) ops) n).2.live =
        (run (config M F) ops).live ++ [(makeBytes (run (config M F) ops).heap n).1] ∧
      (Malloc (run (config M F) ops) n).2.free = [] ∧
      (∀ c ∈ (run (config M F) ops).live, 0 < n ∨ 0 < c.len →
        c.ptr ≠ (Malloc (run (config M F) ops) n).1) := by
  have hinv := Inv_reach M F ops
  have hfree : (run (config M F) ops).free = [] := hinv.nofree (by rw [reach_maxfree]; exact hF)
  refine ⟨hfree, ?_, ?_⟩
  · rw [hinv.currfree_eq, hfree]; rfl
  · intro n hne
    have hfr : Malloc (run (config M F) ops) n = mallocFresh (run (config M F) ops) n :=
      Malloc_eq_fresh _ n (by rw [hfree]; simp)
    refine ⟨hfr, ?_⟩
    rw [hfr] at hne ⊢
    rw [mallocFresh_of_ne_none _ n hne]
    refine ⟨rfl, rfl, hfree, ?_⟩
    intro c hc hpos hcp
    exact fresh_base_ne (Inv_live_placed hinv hc) (le_refl _) hpos
      (by simpa [Block.ptr] using hcp)

/-- Witness for C7: `maxfree = -1`; a block is allocated and freed, then `Malloc 4` is called. -/
theorem C7_reuse_suppressed_witness :
    (-1 : Int) < 0 ∧
    (run (config 0 (-1)) [Op.malloc 4, Op.free (some 1)]).free = [] ∧
    (run (config 0 (-1)) [Op.malloc 4, Op.free (some 1)]).currfree = 0 ∧
    (Malloc (run (config 0 (-1)) [Op.malloc 4, Op.free (some 1)]) 4).2.free = [] :=
  ⟨by decide, (C7_reuse_suppressed 0 (-1) (by decide) [Op.malloc 4, Op.free (some 1)]).1,
    (C7_reuse_suppressed 0 (-1) (by decide) [Op.malloc 4, Op.free (some 1)]).2.1,
    ((C7_reuse_suppressed 0 (-1) (by decide) [Op.malloc 4, Op.free (some 1)]).2.2 4
      (by decide)).2.2.2.1⟩

/-! ## C8: the free cap bounds the free list -/

/-- C8: with `maxfree = F > 0` set on a zero value (and any `maxmem`), after every sequence of
`Malloc` and `Free` calls the lengths of the free-list blocks sum to at most `F`. -/
theorem C8_free_cap (M F : Int) (hF : 0 < F) (ops : List Op) :
    totalLen (run (config M F) ops).free ≤ F := by
  have hinv := Inv_reach M F ops
  have h := hinv.freecap
  rw [reach_maxfree, hinv.currfree_eq] at h
  exact h hF

/-- Witness for C8: free cap 10; a 4-byte block is retained, an 8-byte block is discarded. -/
theorem C8_free_cap_witness :
    (0 : Int) < 10 ∧
    totalLen (run (config 0 10) [Op.malloc 4, Op.malloc 8, Op.free (some 1),
      Op.free (some 5)]).free ≤ 10 :=
  ⟨by decide, C8_free_cap 0 10 (by decide)
    [Op.malloc 4, Op.malloc 8, Op.free (some 1), Op.free (some 5)]⟩

/-! ## C9: fresh allocations -/

/-- C9, as stated, fails: a second `Malloc 0` on the zero value succeeds with no free block,
and its handle equals the base of the other live block. -/
theorem C9_counterexample :
    (run zeroValue [Op.malloc 0]).free = [] ∧
    (run zeroValue [Op.malloc 0]).live = [⟨zerobase, []⟩] ∧
    (Malloc (run zeroValue [Op.malloc 0]) 0).1 = some zerobase ∧
    (Malloc (run zeroValue [Op.malloc 0]) 0).2.live = [⟨zerobase, []⟩, ⟨zerobase, []⟩] := by
  decide

/-- C9 (amended): in every allocator reached from a configured zero value, if `Malloc n`
returns a handle and no free-list block has length at least `n`, then the handle is the base
of a new block, appended to the live list, of exactly `n` bytes that are all zero, and its
base differs from the base of every other live block unless both blocks are zero-size. -/
theorem C9_fresh_allocation (M F : Int) (ops : List Op) (n : Nat)
    (hok : (Malloc (run (config M F) ops) n).1 ≠ none)
    (hno : ∀ b ∈ (run (config M F) ops).free, ¬ n ≤ b.len) :
    ∃ blk : Block,
      (Malloc (run (config M F) ops) n).1 = blk.ptr ∧
      (Malloc (run (config M F) ops) n).2.live = (run (config M F) ops).live ++ [blk] ∧
      blk.len = n ∧ (∀ x ∈ blk.bytes, x = 0) ∧
      (∀ c ∈ (run (config M F) ops).live, 0 < n ∨ 0 < c.len → c.base ≠ blk.base) := by
  have hinv := Inv_reach M F ops
  generalize run (config M F) ops = s at hok hno hinv
  rw [Malloc_eq_fresh s n hno] at hok ⊢
  rw [mallocFresh_of_ne_none s n hok]
  refine ⟨(makeBytes s.heap n).1, rfl, rfl, makeBytes_len _ _, ?_, ?_⟩
  · intro x hx
    rw [makeBytes_bytes] at hx
    exact List.eq_of_mem_replicate hx
  · intro c hc hpos
    exact fresh_base_ne (Inv_live_placed hinv hc) (le_refl _) hpos

/-- Witness for C9: a 3-byte allocation next to a live 2-byte block. -/
theorem C9_fresh_allocation_witness :
    ∃ blk : Block,
      (Malloc (run (config 0 0) [Op.malloc 2]) 3).1 = blk.ptr ∧
      (Malloc (run (config 0 0) [Op.malloc 2]) 3).2.live =
        (run (config 0 0) [Op.malloc 2]).live ++ [blk] ∧
      blk.len = 3 ∧ (∀ x ∈ blk.bytes, x = 0) ∧
      (∀ c ∈ (run (config 0 0) [Op.malloc 2]).live, 0 < 3 ∨ 0 < c.len → c.base ≠ blk.base) :=
  C9_fresh_allocation 0 0 [Op.malloc 2] 3 (by decide) (by decide)

/-! ## C11: a failed allocation changes nothing -/

theorem Malloc_none_state (a : TestAllocator) (n : Nat) (h : (Malloc a n).1 = none) :
    (Malloc a n).2 = a := by
  rcases Malloc_cases a n with ⟨_, hr⟩ | ⟨k, b, _, _, _, _, _, hr⟩
  · rw [hr] at h ⊢
    have hc := (mallocFresh_fst_eq_none a n).1 h
    unfold mallocFresh
    rw [if_pos hc]
  · rw [hr] at h
    simp [mallocReuse, Block.ptr] at h

/-- C11: in every allocator state and for every `n`, if `Malloc n` returns nil then the
allocator is left exactly as it was: the live list, the free list, `currlive`, `currfree` and
both limits are unchanged. -/
theorem C11_failed_malloc_atomic (a : TestAllocator) (n : Nat) (h : (Malloc a n).1 = none) :
    (Malloc a n).2.live = a.live ∧ (Malloc a n).2.free = a.free ∧
    (Malloc a n).2.currlive = a.currlive ∧ (Malloc a n).2.currfree = a.currfree ∧
    (Malloc a n).2.maxmem = a.maxmem ∧ (Malloc a n).2.maxfree = a.maxfree ∧
    (Malloc a n).2 = a := by
  rw [Malloc_none_state a n h]
  exact ⟨rfl, rfl, rfl, rfl, rfl, rfl, rfl⟩

/-- Witness for C11: cap 100 with 60 bytes live; `Malloc 50` returns nil. -/
theorem C11_failed_malloc_atomic_witness :
    (Malloc (run (config 100 0) [Op.malloc 60]) 50).1 = none ∧
    (Malloc (run (config 100 0) [Op.malloc 60]) 50).2 = run (config 100 0) [Op.malloc 60] :=
  ⟨by decide,
    (C11_failed_malloc_atomic (run (config 100 0) [Op.malloc 60]) 50 (by decide)).2.2.2.2.2.2⟩

/-! ## C12: the typed allocation -/

/-- C12: for every allocator, element size `sizeofT` and count `n`, the generic `Malloc` makes
exactly one call to the allocator, `Malloc (n * sizeofT)` (the record of calls grows by that
one entry and the allocator is left as that call leaves it); it returns the nil slice if and
only if that call returned nil, and otherwise a slice of exactly `n` elements whose data
pointer is the handle the call returned. Twenty elements of an 8-byte type request 160
bytes. -/
theorem C12_typed_malloc :
    (∀ (σ : Type) (alloc : Allocator σ) (sizeofT n : Nat) (s : σ) (log : List Op),
      (Generic.Malloc (recording alloc) sizeofT (s, log) n).2 =
        ((alloc.Malloc s (n * sizeofT)).2, log ++ [Op.malloc (n * sizeofT)]) ∧
      (Generic.Malloc alloc sizeofT s n).2 = (alloc.Malloc s (n * sizeofT)).2 ∧
      ((Generic.Malloc alloc sizeofT s n).1 = Slice.nil ↔
        (alloc.Malloc s (n * sizeofT)).1 = none) ∧
      ((alloc.Malloc s (n * sizeofT)).1 ≠ none →
        (Generic.Malloc alloc sizeofT s n).1 = ⟨(alloc.Malloc s (n * sizeofT)).1, n⟩)) ∧
    (Generic.Malloc (recording testAllocator) 8 (zeroValue, []) 20).2.2 = [Op.malloc 160] ∧
    (Generic.Malloc testAllocator 8 zeroValue 20).1 = ⟨some 1, 20⟩ ∧
    (Generic.Malloc testAllocator 8 zeroValue 20).2.currlive = 160 := by
  refine ⟨?_, by decide, by decide, by decide⟩
  intro σ alloc sizeofT n s log
  refine ⟨?_, ?_, ?_, ?_⟩
  · unfold Generic.Malloc recording
    by_cases h : (alloc.Malloc s (n * sizeofT)).1 = none <;> simp [h]
  · unfold Generic.Malloc
    by_cases h : (alloc.Malloc s (n * sizeofT)).1 = none <;> simp [h]
  · unfold Generic.Malloc
    by_cases h : (alloc.Malloc s (n * sizeofT)).1 = none
    · simp [h]
    · simp only [h, if_false, iff_false]
      intro he
      apply h
      simpa [Slice.nil] using congrArg Slice.data he
  · intro h
    unfold Generic.Malloc
    simp [h]

/-- Witness for C12: the typed allocation of the test, on the zero value. -/
theorem C12_typed_malloc_witness :
    (Malloc zeroValue (20 * 8)).1 ≠ none ∧
    (Generic.Malloc testAllocator 8 zeroValue 20).1 = ⟨(Malloc zeroValue (20 * 8)).1, 20⟩ :=
  ⟨by decide, (C12_typed_malloc.1 TestAllocator testAllocator 8 20 zeroValue []).2.2.2
    (by decide)⟩

/-! ## C14: the typed free of a nil slice -/

/-- C14: for every allocator, the generic `Free` of a nil slice panics without calling the
allocator (the state at the panic is the state before, and the record of calls is unchanged);
for every non-nil slice it does not panic, makes the one call `Free` on the data pointer of
the slice and returns exactly the result of that call. -/
theorem C14_typed_free_nil_panics :
    (∀ (σ : Type) (alloc : Allocator σ) (s : σ) (b : Slice), b.data = none →
      Generic.Free alloc s b = Outcome.fatal "nil pointer argument to Free" s) ∧
    (∀ (σ : Type) (alloc : Allocator σ) (s : σ) (log : List Op),
      Generic.Free (recording alloc) (s, log) Slice.nil =
        Outcome.fatal "nil pointer argument to Free" (s, log)) ∧
    (∀ (σ : Type) (alloc : Allocator σ) (s : σ) (b : Slice), b.data ≠ none →
      Generic.Free alloc s b = Outcome.done (alloc.Free s b.data).1 (alloc.Free s b.data).2) ∧
    (∀ (σ : Type) (alloc : Allocator σ) (s : σ) (log : List Op) (b : Slice), b.data ≠ none →
      Generic.Free (recording alloc) (s, log) b =
        Outcome.done (alloc.Free s b.data).1 ((alloc.Free s b.data).2, log ++ [Op.free b.data]))
    := by
  refine ⟨?_, ?_, ?_, ?_⟩
  · intro σ alloc s b hb
    simp [Generic.Free, hb]
  · intro σ alloc s log
    simp [Generic.Free, Slice.nil]
  · intro σ alloc s b hb
    simp [Generic.Free, hb]
  · intro σ alloc s log b hb
    simp [Generic.Free, hb, recording]

/-- Witness for C14: the nil slice and the slice of a live block, on the `TestAllocator`. -/
theorem C14_typed_free_nil_panics_witness :
    Generic.Free testAllocator (run zeroValue [Op.malloc 4]) Slice.nil =
      Outcome.fatal "nil pointer argument to Free" (run zeroValue [Op.malloc 4]) ∧
    Generic.Free testAllocator (run zeroValue [Op.malloc 4]) ⟨some 1, 4⟩ =
      Outcome.done (Free (run zeroValue [Op.malloc 4]) (some 1)).1
        (Free (run zeroValue [Op.malloc 4]) (some 1)).2 :=
  ⟨C14_typed_free_nil_panics.1 TestAllocator testAllocator (run zeroValue [Op.malloc 4])
      Slice.nil rfl,
    C14_typed_free_nil_panics.2.2.1 TestAllocator testAllocator (run zeroValue [Op.malloc 4])
      ⟨some 1, 4⟩ (by decide)⟩

/-! ## Handles identify blocks in reachable allocators -/

theorem set_same (b : Block) :
    ∀ (l : List Block) (k : Nat), l[k]? = some b → l.set k b = l := by
  intro l
  induction l with
  | nil => intro k h; simp at h
  | cons x xs ih =>
    intro k h
    cases k with
    | zero => simp at h; simp [h]
    | succ k => simp at h; simp [ih k h]

theorem swapRemove_append_last (l : List Block) (b : Block) (k : Nat)
    (hk : (l ++ [b])[k]? = some b) : swapRemove (l ++ [b]) k = l := by
  have hlast : (l ++ [b]).getD ((l ++ [b]).length - 1) default = b := by simp
  unfold swapRemove
  rw [hlast]
  by_cases hlt : k < l.length
  · rw [List.set_append_left k b hlt, List.dropLast_concat]
    rw [List.getElem?_append_left hlt] at hk
    exact set_same b l k hk
  · rw [List.set_append_right _ _ (by omega)]
    have hklt := (List.getElem?_eq_some.1 hk).1
    simp at hklt
    have hke : k - l.length = 0 := by omega
    rw [hke]
    simp

theorem zero_block {heap : Nat} {b : Block} (hb : Placed heap b) (hz : b.len = 0) :
    b = ⟨zerobase, []⟩ := by
  cases b with
  | mk base bytes =>
    have h1 : base = zerobase := hb.1 hz
    have h2 : bytes = [] := List.length_eq_zero.1 hz
    rw [h1, h2]

/-- In an allocator that satisfies the invariant, two entries of the lists that start at the
same address are the same slice. -/
theorem same_ptr_eq {a : TestAllocator} (h : Inv a) {b c : Block} (hb : b ∈ tracked a)
    (hc : c ∈ tracked a) (hp : c.ptr = b.ptr) : c = b := by
  by_contra hne
  have hap : Apart c b :=
    List.Pairwise.forall (fun _ _ hxy => Apart_symm hxy) h.apart hc hb hne
  have hz := same_base_zero (h.placed c hc) (h.placed b hb) hap hp
  exact hne ((zero_block (h.placed c hc) hz.1).trans (zero_block (h.placed b hb) hz.2).symm)

theorem Malloc_some_live (a : TestAllocator) (n : Nat) (h : (Malloc a n).1 ≠ none) :
    ∃ b : Block, b.ptr = (Malloc a n).1 ∧ (Malloc a n).2.live = a.live ++ [b] := by
  rcases Malloc_cases a n with ⟨_, hr⟩ | ⟨k, b, _, _, _, _, _, hr⟩
  · rw [hr] at h ⊢
    rw [mallocFresh_of_ne_none a n h]
    exact ⟨(makeBytes a.heap n).1, rfl, rfl⟩
  · rw [hr]
    exact ⟨b, rfl, rfl⟩

/-- Freeing the handle that `Malloc` has just returned restores the live list. -/
theorem Free_after_Malloc {a : TestAllocator} (hinv : Inv a) (n : Nat)
    (h : (Malloc a n).1 ≠ none) :
    (Free (Malloc a n).2 (Malloc a n).1).1 = none ∧
    (Free (Malloc a n).2 (Malloc a n).1).2.live = a.live := by
  rcases Malloc_some_live a n h with ⟨b, hb, hlive⟩
  have hinv2 := Inv_Malloc hinv n
  have hbl : b ∈ (Malloc a n).2.live := by rw [hlive]; simp
  rcases Free_cases (Malloc a n).2 (Malloc a n).1 with ⟨hno, _⟩ | ⟨k, c, hk, hc, _, hr⟩
  · exact absurd hb (hno b hbl)
  · rw [hr]
    refine ⟨freeFound_fst _ _ _, ?_⟩
    rw [freeFound_live]
    have hcb : c = b :=
      same_ptr_eq hinv2 (List.mem_append_left _ hbl)
        (List.mem_append_left _ (List.getElem?_mem hk)) (hc.trans hb.symm)
    subst hcb
    rw [hlive] at hk ⊢
    exact swapRemove_append_last a.live c k hk

/-! ## C13: the typed free undoes the typed allocation -/

/-- C13: on every `TestAllocator` reached from a configured zero value, for every element
size and count for which the generic `Malloc` returns a non-nil slice, the generic `Free` of
that slice calls `Free` of the allocator on exactly the handle its `Malloc` returned, returns
nil, and leaves the live list equal to what it was before the allocation. -/
theorem C13_typed_free_undoes_malloc (M F : Int) (ops : List Op) (sizeofT n : Nat)
    (h : (Generic.Malloc testAllocator sizeofT (run (config M F) ops) n).1 ≠ Slice.nil) :
    (Generic.Malloc testAllocator sizeofT (run (config M F) ops) n).1.data =
      (Malloc (run (config M F) ops) (n * sizeofT)).1 ∧
    (∃ s2 : TestAllocator,
      Generic.Free testAllocator
          (Generic.Malloc testAllocator sizeofT (run (config M F) ops) n).2
          (Generic.Malloc testAllocator sizeofT (run (config M F) ops) n).1 =
        Outcome.done none s2 ∧
      s2 = (Free (Malloc (run (config M F) ops) (n * sizeofT)).2
        (Malloc (run (config M F) ops) (n * sizeofT)).1).2 ∧
      s2.live = (run (config M F) ops).live) := by
  have hinv := Inv_reach M F ops
  generalize run (config M F) ops = s at h hinv
  have hne : (Malloc s (n * sizeofT)).1 ≠ none := by
    intro he
    apply h
    simp [Generic.Malloc, testAllocator, he]
  have hfm := Free_after_Malloc hinv (n * sizeofT) hne
  have hG : Generic.Malloc testAllocator sizeofT s n =
      (⟨(Malloc s (n * sizeofT)).1, n⟩, (Malloc s (n * sizeofT)).2) := by
    simp [Generic.Malloc, testAllocator, hne]
  rw [hG]
  refine ⟨rfl, _, ?_, rfl, hfm.2⟩
  simp only [Generic.Free, testAllocator, hne, if_false]
  rw [hfm.1]

/-- Witness for C13: the allocation of the test, twenty 8-byte elements on the zero value. -/
theorem C13_typed_free_undoes_malloc_witness :
    (Generic.Malloc testAllocator 8 (run (config 0 0) []) 20).1.data =
      (Malloc (run (config 0 0) []) (20 * 8)).1 ∧
    (∃ s2 : TestAllocator,
      Generic.Free testAllocator
          (Generic.Malloc testAllocator 8 (run (config 0 0) []) 20).2
          (Generic.Malloc testAllocator 8 (run (config 0 0) []) 20).1 =
        Outcome.done none s2 ∧
      s2 = (Free (Malloc (run (config 0 0) []) (20 * 8)).2
        (Malloc (run (config 0 0) []) (20 * 8)).1).2 ∧
      s2.live = (run (config 0 0) []).live) :=
  C13_typed_free_undoes_malloc 0 0 [] 8 20 (by decide)

/-! ## C15: a handle offset into a live block -/

/-- C15: on every allocator reached from a configured zero value, for every live block and
every offset `k` with `0 < k < len`, `Free` of the address `base + k` returns the error and
leaves the allocator, hence the live list and the free list, unchanged; the generic `Free` of
a view that starts `k` bytes into the block reports that same error. -/
theorem C15_offset_handle (M F : Int) (ops : List Op) (blk : Block) (k : Nat)
    (hb : blk ∈ (run (config M F) ops).live) (hk0 : 0 < k) (hkL : k < blk.len) :
    (Free (run (config M F) ops) (some (blk.base + k))).1 ≠ none ∧
    (Free (run (config M F) ops) (some (blk.base + k))).2.live = (run (config M F) ops).live ∧
    (Free (run (config M F) ops) (some (blk.base + k))).2.free = (run (config M F) ops).free ∧
    (Free (run (config M F) ops) (some (blk.base + k))).2 = run (config M F) ops ∧
    Generic.Free testAllocator (run (config M F) ops) ⟨some (blk.base + k), blk.len - k⟩ =
      Outcome.done (some "pointer not found in allocations") (run (config M F) ops) := by
  have hinv := Inv_reach M F ops
  generalize run (config M F) ops = s at hb hinv
  have hno : ∀ c ∈ s.live, c.ptr ≠ some (blk.base + k) := by
    intro c hc hcp
    have hbase : c.base = blk.base + k := by simpa [Block.ptr] using hcp
    by_cases hcb : c = blk
    · rw [hcb] at hbase; omega
    · have hap : Apart c blk :=
        List.Pairwise.forall (fun _ _ hxy => Apart_symm hxy) (Inv_live_apart hinv) hc hb hcb
      have hpc := Inv_live_placed hinv hc
      unfold Apart at hap
      unfold Placed zerobase at hpc
      omega
  rcases Free_cases s (some (blk.base + k)) with ⟨_, hr⟩ | ⟨j, c, hj, hc, _, _⟩
  · have hG : Generic.Free testAllocator s ⟨some (blk.base + k), blk.len - k⟩ =
        Outcome.done (some "pointer not found in allocations") s := by
      simp [Generic.Free, testAllocator, hr]
    rw [hr]
    exact ⟨by simp, rfl, rfl, rfl, hG⟩
  · exact absurd hc (hno c (List.getElem?_mem hj))

/-- Witness for C15: the address two bytes into a live four-byte block. -/
theorem C15_offset_handle_witness :
    (Free (run (config 0 0) [Op.malloc 4, Op.malloc 4]) (some (1 + 2))).1 ≠ none ∧
    (Free (run (config 0 0) [Op.malloc 4, Op.malloc 4]) (some (1 + 2))).2 =
      run (config 0 0) [Op.malloc 4, Op.malloc 4] :=
  ⟨(C15_offset_handle 0 0 [Op.malloc 4, Op.malloc 4] ⟨1, [0, 0, 0, 0]⟩ 2 (by decide)
      (by decide) (by decide)).1,
    (C15_offset_handle 0 0 [Op.malloc 4, Op.malloc 4] ⟨1, [0, 0, 0, 0]⟩ 2 (by decide)
      (by decide) (by decide)).2.2.2.1⟩

/-! ## C16: the cap scenario -/

theorem cap_first_malloc (M : Int) (a : Nat) (ha : 0 < a) (haM : (a : Int) ≤ M) :
    Malloc (config M 0) a = (some 1,
      { maxmem := M, currlive := a, live := [⟨1, List.replicate a 0⟩], currfree := 0,
        maxfree := 0, free := [], heap := a }) := by
  have ha0 : a ≠ 0 := by omega
  simp [Malloc, scanFree, config, SetMaxFree, SetMaxMemory, zeroValue, makeBytes, Block.ptr, ha0]
  omega

theorem cap_second_malloc (M : Int) (a b : Nat) (hab : M < (a : Int) + b) (hM : 0 < M) :
    Malloc
      { maxmem := M, currlive := a, live := [⟨1, List.replicate a 0⟩], currfree := 0,
        maxfree := 0, free := [], heap := a } b =
      (none,
        { maxmem := M, currlive := a, live := [⟨1, List.replicate a 0⟩], currfree := 0,
          maxfree := 0, free := [], heap := a }) := by
  simp [Malloc, scanFree]
  omega

theorem cap_free (M : Int) (a : Nat) :
    Free
      { maxmem := M, currlive := a, live := [⟨1, List.replicate a 0⟩], currfree := 0,
        maxfree := 0, free := [], heap := a } (some 1) =
      (none,
        { maxmem := M, currlive := a, live := [], currfree := a,
          maxfree := 0, free := [⟨1, List.replicate a 0⟩], heap := a }) := by
  simp [Free, findLive, Block.ptr, swapRemove, Block.len]

theorem cap_third_malloc (M : Int) (a b : Nat) (hba : b ≤ a) (hlen : a < maxInt) :
    (Malloc
      { maxmem := M, currlive := a, live := [], currfree := a,
        maxfree := 0, free := [⟨1, List.replicate a 0⟩], heap := a } b).1 = some 1 := by
  simp [Malloc, scanFree, Block.len, hba, hlen, Block.ptr]

/-- C16: on a zero value with `maxmem = M > 0` and `maxfree = 0`, for all sizes `b ≤ a ≤ M`
with `a + b > M` (`a` being a Go slice length, below `math.MaxInt`): `Malloc a` returns a
handle `h`, the following `Malloc b` returns nil, the following `Free h` returns nil, and the
following `Malloc b` succeeds (it returns `h` again, reusing the freed block). -/
theorem C16_cap_scenario (M : Int) (a b : Nat) (hM : 0 < M) (hba : b ≤ a)
    (haM : (a : Int) ≤ M) (hab : M < (a : Int) + b) (hlen : a < maxInt) :
    ∃ h : Nat,
      (Malloc (config M 0) a).1 = some h ∧
      (Malloc (run (config M 0) [Op.malloc a]) b).1 = none ∧
      (Free (run (config M 0) [Op.malloc a, Op.malloc b]) (some h)).1 = none ∧
      (Malloc (run (config M 0) [Op.malloc a, Op.malloc b, Op.free (some h)]) b).1 ≠ none ∧
      (Malloc (run (config M 0) [Op.malloc a, Op.malloc b, Op.free (some h)]) b).1 = some h := by
  have ha : 0 < a := by omega
  have h1 := cap_first_malloc M a ha haM
  have h2 := cap_second_malloc M a b hab hM
  have h3 := cap_free M a
  have h4 := cap_third_malloc M a b hba hlen
  refine ⟨1, ?_, ?_, ?_, ?_, ?_⟩
  · rw [h1]
  · simp only [run, List.foldl, step, h1, h2]
  · simp only [run, List.foldl, step, h1, h2, h3]
  · simp only [run, List.foldl, step, h1, h2, h3, h4]
    simp
  · simp only [run, List.foldl, step, h1, h2, h3, h4]

/-- Witness for C16: the scenario of the specification, `M = 100`, `a = 60`, `b = 50`. -/
theorem C16_cap_scenario_witness :
    ∃ h : Nat,
      (Malloc (config 100 0) 60).1 = some h ∧
      (Malloc (run (config 100 0) [Op.malloc 60]) 50).1 = none ∧
      (Free (run (config 100 0) [Op.malloc 60, Op.malloc 50]) (some h)).1 = none ∧
      (Malloc (run (config 100 0) [Op.malloc 60, Op.malloc 50, Op.free (some h)]) 50).1
        ≠ none ∧
      (Malloc (run (config 100 0) [Op.malloc 60, Op.malloc 50, Op.free (some h)]) 50).1
        = some h :=
  C16_cap_scenario 100 60 50 (by decide) (by decide) (by decide) (by decide) (by decide)

/-! ## C17: exclusive membership -/

/-- C17, as stated, fails: two zero-size allocations put the same base address twice in the
live list, and freeing one of them leaves that address in both the live and the free list. -/
theorem C17_counterexample :
    (run zeroValue [Op.malloc 0, Op.malloc 0]).live = [⟨zerobase, []⟩, ⟨zerobase, []⟩] ∧
    (run zeroValue [Op.malloc 0, Op.malloc 0, Op.free (some zerobase)]).live
      = [⟨zerobase, []⟩] ∧
    (run zeroValue [Op.malloc 0, Op.malloc 0, Op.free (some zerobase)]).free
      = [⟨zerobase, []⟩] ∧
    (run zeroValue [Op.malloc 0, Op.malloc 0, Op.free (some zerobase), Op.malloc 0,
      Op.free (some zerobase), Op.free (some zerobase)]).free
      = [⟨zerobase, []⟩, ⟨zerobase, []⟩] := by
  decide

/-- C17 (amended): in every allocator reached from a configured zero value, two entries of the
live list followed by the free list never have the same base address unless both are
zero-size: among the blocks of nonzero length no base address occurs twice in the live list,
none twice in the free list, and none in both lists. -/
theorem C17_exclusive_membership (M F : Int) (ops : List Op) :
    ((run (config M F) ops).live ++ (run (config M F) ops).free).Pairwise
      (fun b c => b.base = c.base → b.len = 0 ∧ c.len = 0) ∧
    ((((run (config M F) ops).live ++ (run (config M F) ops).free).filter
      (fun b => decide (0 < b.len))).map Block.base).Nodup := by
  have hinv := Inv_reach M F ops
  generalize run (config M F) ops = s at hinv
  have hpw : (s.live ++ s.free).Pairwise
      (fun b c => b.base = c.base → b.len = 0 ∧ c.len = 0) := by
    refine List.Pairwise.imp_of_mem ?_ hinv.apart
    intro b c hb hc hap he
    exact same_base_zero (hinv.placed b hb) (hinv.placed c hc) hap (by simp [Block.ptr, he])
  refine ⟨hpw, ?_⟩
  have hf := List.Pairwise.filter (fun b => decide (0 < b.len)) hpw
  have hf2 : ((s.live ++ s.free).filter (fun b => decide (0 < b.len))).Pairwise
      (fun b c => b.base ≠ c.base) := by
    refine List.Pairwise.imp_of_mem ?_ hf
    intro b c hb _ h he
    have hpos : 0 < b.len := by simpa using (List.mem_filter.1 hb).2
    have := (h he).1
    omega
  exact List.Pairwise.map Block.base (fun _ _ h => h) hf2

/-! ## C18: the release transition -/

/-- C18: in every allocator state, for a handle `h` that is the base of the live block `b` and
of no other live slice, `Free h` returns nil and removes exactly `b` from the live list (the
live list before is a permutation of `b` followed by the live list after); if `maxfree = 0`
or `currfree + len b < maxfree`, `b` itself, with its length, is appended to the free list and
`currfree` grows by `len b`; otherwise the free list and `currfree` are unchanged, so `b` is
discarded, and this is the case when `currfree + len b = maxfree ≠ 0` and, `currfree` being
non-negative, for every negative `maxfree`. The limits, `currlive` and the heap are untouched.
In every allocator reached from a configured zero value a handle is the base of no two
different live slices and `currfree` is non-negative, so this covers every handle of a live
block there. -/
theorem C18_release_transition :
    (∀ (a : TestAllocator) (h : Pointer) (b : Block), b ∈ a.live → b.ptr = h →
      (∀ c ∈ a.live, c.ptr = h → c = b) →
      (Free a h).1 = none ∧ a.live.Perm (b :: (Free a h).2.live) ∧
      ((a.maxfree = 0 ∨ a.currfree + b.len < a.maxfree) →
        (Free a h).2.free = a.free ++ [b] ∧ (Free a h).2.currfree = a.currfree + b.len) ∧
      (¬ (a.maxfree = 0 ∨ a.currfree + b.len < a.maxfree) →
        (Free a h).2.free = a.free ∧ (Free a h).2.currfree = a.currfree) ∧
      (a.maxfree ≠ 0 → a.currfree + b.len = a.maxfree →
        (Free a h).2.free = a.free ∧ (Free a h).2.currfree = a.currfree) ∧
      (a.maxfree < 0 → 0 ≤ a.currfree →
        (Free a h).2.free = a.free ∧ (Free a h).2.currfree = a.currfree) ∧
      (Free a h).2.maxmem = a.maxmem ∧ (Free a h).2.maxfree = a.maxfree ∧
      (Free a h).2.currlive = a.currlive ∧ (Free a h).2.heap = a.heap) ∧
    (∀ (M F : Int) (ops : List Op),
      0 ≤ (run (config M F) ops).currfree ∧
      ∀ b c : Block, b ∈ (run (config M F) ops).live →
        c ∈ (run (config M F) ops).live → c.ptr = b.ptr → c = b) := by
  refine ⟨?_, ?_⟩
  · intro a h b hb hp huniq
    rcases Free_cases a h with ⟨hno, _⟩ | ⟨k, c, hk, hc, _, hr⟩
    · exact absurd hp (hno b hb)
    · have hcb : c = b := huniq c (List.getElem?_mem hk) hc
      subst hcb
      rw [hr]
      have hdisc : ¬ (a.maxfree = 0 ∨ a.currfree + c.len < a.maxfree) →
          (freeFound a k c).2.free = a.free ∧ (freeFound a k c).2.currfree = a.currfree := by
        intro hcond; unfold freeFound; rw [if_neg hcond]; exact ⟨rfl, rfl⟩
      refine ⟨freeFound_fst a k c, ?_, ?_, hdisc, ?_, ?_, ?_⟩
      · rw [freeFound_live]; exact swapRemove_perm a.live k c hk
      · intro hcond; unfold freeFound; rw [if_pos hcond]; exact ⟨rfl, rfl⟩
      · intro h0 he; exact hdisc (by omega)
      · intro hneg hcf; exact hdisc (by omega)
      · unfold freeFound; split <;> exact ⟨rfl, rfl, rfl, rfl⟩
  · intro M F ops
    have hinv := Inv_reach M F ops
    refine ⟨by rw [hinv.currfree_eq]; exact totalLen_nonneg _, ?_⟩
    intro b c hb hc hp
    exact same_ptr_eq hinv (List.mem_append_left _ hb) (List.mem_append_left _ hc) hp

/-- Witness for C18: `maxfree = 8`; a 4-byte block is retained, then an 8-byte block, for
which `currfree + len` exceeds `maxfree`, is discarded. -/
theorem C18_release_transition_witness :
    ((Free (run (config 0 8) [Op.malloc 4, Op.malloc 8]) (some 1)).2.free
      = [⟨1, [0, 0, 0, 0]⟩] ∧
     (Free (run (config 0 8) [Op.malloc 4, Op.malloc 8]) (some 1)).2.currfree = 0 + 4) ∧
    ((Free (run (config 0 8) [Op.malloc 4, Op.malloc 8, Op.free (some 1)]) (some 5)).2.free
      = [⟨1, [0, 0, 0, 0]⟩] ∧
     (Free (run (config 0 8) [Op.malloc 4, Op.malloc 8, Op.free (some 1)])
      (some 5)).2.currfree = 4) :=
  ⟨(C18_release_transition.1 (run (config 0 8) [Op.malloc 4, Op.malloc 8]) (some 1)
      ⟨1, [0, 0, 0, 0]⟩ (by decide) (by decide) (by decide)).2.2.1 (by decide),
    (C18_release_transition.1 (run (config 0 8) [Op.malloc 4, Op.malloc 8, Op.free (some 1)])
      (some 5) ⟨5, [0, 0, 0, 0, 0, 0, 0, 0]⟩ (by decide) (by decide) (by decide)).2.2.2.1
      (by decide)⟩

/-! ## C19: the running counters -/

/-- C19 fails on the code: `Free` never decreases `currlive`. After `Malloc 60` and `Free` of
its handle the live list is empty, its lengths sum to 0, and `currlive` is still 60
(`currfree` is 60, the length of the retained block). -/
theorem C19_currlive_not_decreased :
    (Malloc zeroValue 60).1 = some 1 ∧
    (Free (run zeroValue [Op.malloc 60]) (some 1)).1 = none ∧
    (run zeroValue [Op.malloc 60, Op.free (some 1)]).live = [] ∧
    totalLen (run zeroValue [Op.malloc 60, Op.free (some 1)]).live = 0 ∧
    (run zeroValue [Op.malloc 60, Op.free (some 1)]).currlive = 60 ∧
    (run zeroValue [Op.malloc 60, Op.free (some 1)]).currfree = 60 ∧
    totalLen (run zeroValue [Op.malloc 60, Op.free (some 1)]).free = 60 := by
  decide

/-! ## C20: allocation within the budget -/

/-- C20 fails on the code: with `maxmem = 100` and `maxfree = -1`, after `Malloc 60` and `Free`
of its handle the block is discarded, so the live and free lists are empty and 60 more bytes
fit the budget; yet `Malloc 60` returns nil, because `currlive` still counts the freed block. -/
theorem C20_discarded_memory_still_counted :
    (Malloc (config 100 (-1)) 60).1 = some 1 ∧
    (Free (run (config 100 (-1)) [Op.malloc 60]) (some 1)).1 = none ∧
    (run (config 100 (-1)) [Op.malloc 60, Op.free (some 1)]).live = [] ∧
    (run (config 100 (-1)) [Op.malloc 60, Op.free (some 1)]).free = [] ∧
    totalLen (run (config 100 (-1)) [Op.malloc 60, Op.free (some 1)]).live +
      totalLen (run (config 100 (-1)) [Op.malloc 60, Op.free (some 1)]).free + 60 ≤ 100 ∧
    (run (config 100 (-1)) [Op.malloc 60, Op.free (some 1)]).currlive = 60 ∧
    (Malloc (run (config 100 (-1)) [Op.malloc 60, Op.free (some 1)]) 60).1 = none := by
  decide

/-! ## The 64-bit model -/

theorem wrap64_of_inRange {x : Int} (h : InRange x) : wrap64 x = x := by
  unfold InRange at h
  unfold wrap64
  omega

theorem wrap64_add_left (x y : Int) : wrap64 (wrap64 x + y) = wrap64 (x + y) := by
  unfold wrap64
  omega

theorem wrap64_inRange (x : Int) : InRange (wrap64 x) := by
  unfold InRange wrap64
  omega

theorem gib_lt_maxInt : gib < maxInt := by
  unfold gib maxInt; omega

theorem wrap64_gib : wrap64 (gib : Int) = gib :=
  wrap64_of_inRange (by unfold InRange gib; omega)

theorem wrap64_zero : wrap64 0 = 0 :=
  wrap64_of_inRange (by unfold InRange; omega)

theorem run64_append (l1 l2 : List Op64) :
    ∀ a : TestAllocator, run64 a (l1 ++ l2) = (run64 a l1).bind (fun s => run64 s l2) := by
  induction l1 with
  | nil => intro a; simp [run64]
  | cons op ops ih =>
    intro a
    simp only [List.cons_append, run64]
    cases step64 a op with
    | none => simp
    | some a2 => simpa using ih a2

/-- The 64-bit `Free` agrees with the exact one when the new `currfree` does not overflow. -/
theorem Free64_eq_Free (a : TestAllocator) (p : Pointer)
    (h : ∀ b ∈ a.live, InRange (a.currfree + b.len)) : Free64 a p = Free a p := by
  unfold Free64 Free
  cases hf : findLive p a.live 0 with
  | none => rfl
  | some i =>
    rcases findLive_eq_some p a.live 0 i hf with ⟨k, b, hik, hk, _, _⟩
    have hi : i = k := by omega
    subst hi
    have hb : a.live.getD i default = b := by simp [hk]
    simp only [hb, wrap64_of_inRange (h b (List.getElem?_mem hk))]

/-- The 64-bit `Malloc` agrees with the exact one, up to the heap cursor, when `make` returns
the block of `makeBytes` and no counter overflows. -/
theorem Malloc64_eq_Malloc (a : TestAllocator) (n : Nat)
    (hfree : ∀ b ∈ a.free, InRange (a.currfree - b.len) ∧ InRange (a.currlive + b.len))
    (h1 : InRange (a.currlive + n)) (h2 : InRange (a.currlive + n + a.currfree)) :
    Malloc64 a n (some (makeBytes a.heap n).1) =
      some ((Malloc a n).1, { (Malloc a n).2 with heap := a.heap }) := by
  have ht : ((n : Nat) : Int).toNat = n := by simp
  unfold Malloc64 Malloc
  rw [ht]
  rcases scanFree_spec n a.free 0 (-1) maxInt with ⟨_, hr⟩ | ⟨k, b, hk, hr, _, _, _, _⟩
  · have hneg : ¬ (0 : Int) ≤ -1 := by omega
    simp only [hr, hneg, if_false, wrap64_of_inRange h1, wrap64_of_inRange h2]
    by_cases hc : a.maxmem ≠ 0 ∧ a.currlive + n + a.currfree > a.maxmem
    · rw [if_pos hc, if_pos hc]
    · rw [if_neg hc, if_neg hc]
  · have hb := hfree b (List.getElem?_mem hk)
    have hpos : (0 : Int) ≤ ((0 + k : Nat) : Int) := Int.ofNat_nonneg _
    simp only [hr, hpos, if_true, wrap64_of_inRange hb.1, wrap64_of_inRange hb.2]

/-! ## C3: the memory cap and the wrap-around of `currlive` -/

theorem first_malloc64 (blk : Block) :
    Malloc64 (config (2 * gib) 0) gib (some blk) =
      some (blk.ptr,
        { maxmem := 2 * gib, currlive := gib, live := [blk], currfree := 0, maxfree := 0,
          free := [], heap := 0 }) := by
  have hc : ¬ (2 * (gib : Int) < gib) := by omega
  simp [Malloc64, scanFree, config, SetMaxFree, SetMaxMemory, zeroValue, wrap64_gib, hc]

theorem cycle_free64 (blk : Block) (hb : blk.base = 1) (hl : blk.len = gib) (c : Int) :
    Free64
      { maxmem := 2 * gib, currlive := c, live := [blk], currfree := 0, maxfree := 0,
        free := [], heap := 0 } (some 1) = (none, cycleState blk c) := by
  simp [Free64, findLive, Block.ptr, hb, hl, swapRemove, wrap64_gib, cycleState]

theorem cycle_malloc64 (blk : Block) (hl : blk.len = gib) (c : Int) :
    Malloc64 (cycleState blk c) gib none =
      some (blk.ptr,
        { maxmem := 2 * gib, currlive := wrap64 (c + gib), live := [blk], currfree := 0,
          maxfree := 0, free := [], heap := 0 }) := by
  simp [Malloc64, scanFree, cycleState, hl, swapRemove, wrap64_zero, gib_lt_maxInt]

theorem first_cycle64 (blk : Block) (hb : blk.base = 1) (hl : blk.len = gib) :
    run64 (config (2 * gib) 0) [Op64.malloc gib (some blk), Op64.free (some 1)] =
      some (cycleState blk gib) := by
  simp only [run64, step64, first_malloc64, Option.map, cycle_free64 blk hb hl]

theorem reuse_cycle64 (blk : Block) (hb : blk.base = 1) (hl : blk.len = gib) (c : Int) :
    run64 (cycleState blk c) reuseCycle = some (cycleState blk (wrap64 (c + gib))) := by
  simp only [reuseCycle, run64, step64, cycle_malloc64 blk hl, Option.map,
    cycle_free64 blk hb hl]

/-- After `j` reuse cycles `currlive` has grown by `j` GiB, modulo `2 ^ 64`: no call ever
decreases it. -/
theorem reuse_cycles64 (blk : Block) (hb : blk.base = 1) (hl : blk.len = gib) (j : Nat) :
    ∀ c : Int, InRange c →
      run64 (cycleState blk c) (List.replicate j reuseCycle).flatten =
        some (cycleState blk (wrap64 (c + j * gib))) := by
  induction j with
  | zero =>
    intro c hc
    simp [run64, wrap64_of_inRange hc]
  | succ j ih =>
    intro c hc
    rw [List.replicate_succ, List.flatten_cons, run64_append, reuse_cycle64 blk hb hl c]
    simp only [Option.bind]
    rw [ih (wrap64 (c + gib)) (wrap64_inRange _), wrap64_add_left]
    congr 3
    push_cast
    ring

theorem gibBlock_len : gibBlock.len = gib := by
  show (List.replicate gib 0).length = gib
  exact List.length_replicate _ _

theorem bigBlock_len : bigBlock.len = 2 * gib := by
  show (List.replicate (2 * gib) 0).length = 2 * gib
  exact List.length_replicate _ _

theorem last_malloc64 (blk big : Block) (hl : blk.len = gib) (c : Int)
    (h1 : InRange (c + 2 * gib)) (h2 : InRange (c + 2 * gib + gib))
    (h3 : ¬ (2 * (gib : Int) < c + 2 * gib + gib)) :
    Malloc64 (cycleState blk c) (2 * gib) (some big) =
      some (big.ptr,
        { maxmem := 2 * gib, currlive := c + 2 * gib, live := [big], currfree := gib,
          maxfree := 0, free := [blk], heap := 0 }) := by
  have ht : (2 * (gib : Int)).toNat = 2 * gib := by omega
  have hn : ¬ (2 * gib ≤ gib) := by unfold gib; omega
  simp [Malloc64, scanFree, cycleState, hl, ht, hn, wrap64_of_inRange h1, wrap64_of_inRange h2,
    h3]

theorem wrap_count : wrap64 ((gib : Int) + ((2 ^ 33 - 1 : Nat) : Int) * gib) = -(2 ^ 63) := by
  unfold wrap64 gib
  norm_num

theorem last_run64 (blk big : Block) (hl : blk.len = gib) :
    run64 (cycleState blk (-(2 ^ 63))) [Op64.malloc (2 * gib) (some big)] =
      some
        { maxmem := 2 * gib, currlive := -(2 ^ 63) + 2 * gib, live := [big], currfree := gib,
          maxfree := 0, free := [blk], heap := 0 } := by
  simp only [run64, step64, Option.map]
  rw [last_malloc64 blk big hl (-(2 ^ 63))
    (by unfold InRange gib; omega) (by unfold InRange gib; omega) (by unfold gib; omega)]

/-- The wrap-around scenario, for any one-GiB block at address 1 and any block that the last
`make` returns. -/
theorem wrap_scenario (blk big : Block) (hb : blk.base = 1) (hl : blk.len = gib) :
    run64 (config (2 * gib) 0)
        ([Op64.malloc gib (some blk), Op64.free (some 1)] ++
          (List.replicate (2 ^ 33 - 1) reuseCycle).flatten ++
          [Op64.malloc (2 * gib) (some big)]) =
      some
        { maxmem := 2 * gib, currlive := -(2 ^ 63) + 2 * gib, live := [big], currfree := gib,
          maxfree := 0, free := [blk], heap := 0 } := by
  rw [run64_append, run64_append, first_cycle64 blk hb hl]
  simp only [Option.bind]
  rw [reuse_cycles64 blk hb hl (2 ^ 33 - 1) gib (by unfold InRange gib; omega), wrap_count]
  simp only [Option.bind]
  exact last_run64 blk big hl

theorem wrapTrace_run : run64 (config (2 * gib) 0) wrapTrace = some wrapFinal :=
  wrap_scenario gibBlock bigBlock rfl gibBlock_len

theorem wrapFinal_total : totalLen wrapFinal.live + totalLen wrapFinal.free = 3 * gib := by
  simp only [wrapFinal, totalLen, List.map_cons, List.map_nil, List.sum_cons, List.sum_nil,
    gibBlock_len, bigBlock_len]
  push_cast
  ring

theorem makeSpec_gibBlock : MakeSpec gib (some gibBlock) := by
  intro b hb
  cases hb
  refine ⟨by rw [gibBlock_len], by rw [gibBlock_len]; exact gib_lt_maxInt, ?_⟩
  intro x hx
  exact List.eq_of_mem_replicate hx

theorem makeSpec_bigBlock : MakeSpec (2 * gib) (some bigBlock) := by
  intro b hb
  cases hb
  refine ⟨by rw [bigBlock_len]; push_cast; ring, by rw [bigBlock_len]; unfold gib maxInt; omega,
    ?_⟩
  intro x hx
  exact List.eq_of_mem_replicate hx

/-- C3 fails on the code: `currlive` is a 64-bit `int` that `Free` never decreases. With
the cap at two GiB, allocating and freeing one one-GiB block `2 ^ 33` times (every time but
the first by reuse) brings `currlive` to `2 ^ 63`, which wraps to `-2 ^ 63`; the check of line
90 then passes for a fresh two-GiB block, and the live and free lists hold three GiB. Each
`make` of the scenario returns a zeroed slice of the requested length. -/
theorem C3_cap_exceeded_after_wrap :
    run64 (config (2 * gib) 0) wrapTrace = some wrapFinal ∧
    wrapFinal.maxmem = 2 * gib ∧ (0 : Int) < 2 * gib ∧
    totalLen wrapFinal.live + totalLen wrapFinal.free = 3 * gib ∧
    ¬ (totalLen wrapFinal.live + totalLen wrapFinal.free ≤ wrapFinal.maxmem) ∧
    MakeSpec gib (some gibBlock) ∧ MakeSpec (2 * gib) (some bigBlock) := by
  refine ⟨wrapTrace_run, rfl, by unfold gib; omega, wrapFinal_total, ?_, makeSpec_gibBlock,
    makeSpec_bigBlock⟩
  rw [wrapFinal_total]
  show ¬ ((3 : Int) * gib ≤ 2 * gib)
  unfold gib
  omega

/-! ## C10: exhaustion -/

theorem Malloc64_fresh (a : TestAllocator) (n : Int) (made : Option Block) (hn : 0 ≤ n)
    (hno : ∀ b ∈ a.free, ¬ n ≤ (b.len : Int)) :
    Malloc64 a n made =
      if a.maxmem ≠ 0 ∧ wrap64 (wrap64 (a.currlive + n) + a.currfree) > a.maxmem then
        some (none, a)
      else
        made.map (fun b => (b.ptr,
          { a with currlive := wrap64 (a.currlive + n), live := a.live ++ [b] })) := by
  have hscan : scanFree n.toNat a.free 0 (-1, maxInt) = (-1, maxInt) := by
    rcases scanFree_spec n.toNat a.free 0 (-1) maxInt with ⟨_, hr⟩ | ⟨k, b, hk, _, h1, _, _, _⟩
    · exact hr
    · exfalso
      apply hno b (List.getElem?_mem hk)
      omega
  unfold Malloc64
  simp only [hscan]
  cases made <;> simp

/-- C10, as stated, fails in two ways. By design: with `maxmem = -1` and nothing allocated,
`Malloc 5` returns nil although `maxmem > 0` does not hold. By overflow: with the cap at 100
and 60 bytes live, `Malloc (math.MaxInt - 59)` makes `currlive + n` wrap to `-2 ^ 63`, the
check passes and the call panics in `make` instead of returning nil. By the limits of
`make`: with no cap, `Malloc (2 ^ 62)` panics in `make` instead of returning a block. -/
theorem C10_counterexample :
    (config (-1) 0).free = [] ∧
    Malloc64 (config (-1) 0) 5 (some ⟨1, [0, 0, 0, 0, 0]⟩) = some (none, config (-1) 0) ∧
    ¬ (0 < (config (-1) 0).maxmem ∧
      (config (-1) 0).currlive + 5 + (config (-1) 0).currfree > (config (-1) 0).maxmem) ∧
    (run (config 100 0) [Op.malloc 60]).free = [] ∧
    (run (config 100 0) [Op.malloc 60]).currlive = 60 ∧
    (0 < (run (config 100 0) [Op.malloc 60]).maxmem ∧
      (run (config 100 0) [Op.malloc 60]).currlive + ((maxInt : Int) - 59) +
        (run (config 100 0) [Op.malloc 60]).currfree >
      (run (config 100 0) [Op.malloc 60]).maxmem) ∧
    wrap64 (60 + ((maxInt : Int) - 59)) = -(2 ^ 63) ∧
    Malloc64 (run (config 100 0) [Op.malloc 60]) ((maxInt : Int) - 59) none = none ∧
    Malloc64 zeroValue (2 ^ 62) none = none := by
  decide

/-- C10 (amended): in every allocator state, for every `n ≥ 0` such that no free-list block
has length at least `n` and such that `currlive + n` and `currlive + n + currfree` do not
overflow a 64-bit `int`, `Malloc n` returns nil, leaving the state as it was, if and only if
`maxmem ≠ 0` and `currlive + n + currfree > maxmem`; in every other case the call reaches
`make`, and when `make` returns its slice of `n` zero bytes the call returns the base of that
new block, appended to the live list, adds `n` to `currlive` and leaves the free list and
`currfree` as they were. -/
theorem C10_exhaustion_int64 (a : TestAllocator) (n : Int) (made : Option Block)
    (hn : 0 ≤ n) (hno : ∀ b ∈ a.free, ¬ n ≤ (b.len : Int))
    (h1 : InRange (a.currlive + n)) (h2 : InRange (a.currlive + n + a.currfree))
    (hmk : MakeSpec n made) :
    ((∃ s, Malloc64 a n made = some (none, s)) ↔
      (a.maxmem ≠ 0 ∧ a.currlive + n + a.currfree > a.maxmem)) ∧
    ((a.maxmem ≠ 0 ∧ a.currlive + n + a.currfree > a.maxmem) →
      Malloc64 a n made = some (none, a)) ∧
    (¬ (a.maxmem ≠ 0 ∧ a.currlive + n + a.currfree > a.maxmem) →
      ∀ blk, made = some blk →
        (blk.len : Int) = n ∧ (∀ x ∈ blk.bytes, x = 0) ∧
        Malloc64 a n made = some (blk.ptr,
          { a with currlive := a.currlive + n, live := a.live ++ [blk] })) := by
  have hM := Malloc64_fresh a n made hn hno
  rw [wrap64_of_inRange h1, wrap64_of_inRange h2] at hM
  have hyes : (a.maxmem ≠ 0 ∧ a.currlive + n + a.currfree > a.maxmem) →
      Malloc64 a n made = some (none, a) := by
    intro hc; rw [hM, if_pos hc]
  have hnot : ¬ (a.maxmem ≠ 0 ∧ a.currlive + n + a.currfree > a.maxmem) →
      ∀ blk, made = some blk →
        Malloc64 a n made = some (blk.ptr,
          { a with currlive := a.currlive + n, live := a.live ++ [blk] }) := by
    intro hc blk hb
    rw [hM, if_neg hc, hb]
    rfl
  refine ⟨⟨?_, fun hc => ⟨a, hyes hc⟩⟩, hyes, ?_⟩
  · rintro ⟨s, hs⟩
    by_contra hc
    cases hmade : made with
    | none =>
      rw [hM, if_neg hc, hmade] at hs
      simp at hs
    | some blk =>
      rw [hnot hc blk hmade] at hs
      simp [Block.ptr] at hs
  · intro hc blk hb
    exact ⟨(hmk blk hb).1, (hmk blk hb).2.2, hnot hc blk hb⟩

/-- Witness for C10: cap 100 with 60 bytes live; `Malloc 50` is refused. -/
theorem C10_exhaustion_int64_witness :
    Malloc64 (run (config 100 0) [Op.malloc 60]) 50 (some ⟨61, List.replicate 50 0⟩) =
      some (none, run (config 100 0) [Op.malloc 60]) :=
  (C10_exhaustion_int64 (run (config 100 0) [Op.malloc 60]) 50 (some ⟨61, List.replicate 50 0⟩)
    (by decide) (by decide) (by unfold InRange; decide) (by unfold InRange; decide)
    (by
      intro b hb
      cases hb
      exact ⟨by decide, by decide, by decide⟩)).2.1 (by decide)

end manual
